import Mathlib

/-!
Shallow embedding of the biathlon race simulator (Go sources: the event
simulator, the domain types, the config loader and the report formatter),
together with proofs about the behaviour its specification claims.

Conventions of the embedding:
* Go `time.Duration` (an `int64` count of nanoseconds) is modelled as `Int`.
  Overflow never matters for the state-machine claims; where the Go standard
  library checks `int64` bounds explicitly (duration parsing), those checks
  are carried over as explicit comparisons against `2^63`.
* Go `time.Time` is modelled as an `Int` absolute nanosecond coordinate.
  Times parsed with layout `15:04:05.000` live on January 1 of year 0 and are
  represented by their nanosecond offset into that day (in `[0, 86400e9)`).
  The zero `time.Time` (year 1) lies 366 days later, so it is represented by
  the constant `goZeroTime = 366 * 86400e9`; `IsZero` is equality with it.
  `Add`, `Sub`, `After` are then plain integer `+`, `-`, `>`.
* Go `int` is modelled as `Int` (no claim exercises 64-bit wrap-around).
* Go `float64` lap/penalty lengths and speeds are modelled as `Rat`; the only
  float operations the claims touch (comparisons with zero, division of
  exactly-represented small values) agree with exact rational arithmetic.
* Mutation is modelled by explicit state passing; a Go method returning
  `error` becomes a function returning the new state paired with
  `Option String` (`none` = nil error).  Console warnings (`fmt.Printf`)
  have no effect on program state and are elided.
* The narration log stores the appended `Event` records; rendering each
  record to its sentence (`Event.String`) is irrelevant to every claim and
  is elided, order and multiplicity of appends being preserved.
-/

/-- The zero `time.Time` (January 1, year 1), which is 366 days after the
January 1, year 0 day on which all parsed clock times live. -/
def goZeroTime : Int := 366 * 86400 * 1000000000

/-- Go `t.IsZero()`. -/
def timeIsZero (t : Int) : Bool := t = goZeroTime

/-- Nanoseconds in a millisecond, second, minute, hour (Go constants). -/
def nsMillisecond : Int := 1000000

def nsSecond : Int := 1000000000

def nsMinute : Int := 60000000000

def nsHour : Int := 3600000000000

/-- Maximum value of Go's `int64`. -/
def maxInt64 : Int := 9223372036854775807

/-! ## Decimal digits and `fmt` zero-padded integer formatting -/

/-- The character for a single decimal digit. -/
def digitChar (d : Nat) : Char := Char.ofNat (48 + d)

/-- Fuel-driven decimal digit expansion, most significant digit first
(structural recursion so that proofs and witnesses can evaluate it). -/
def natDigitsAux : Nat → Nat → List Char
  | 0, _ => []
  | fuel + 1, n =>
    if n = 0 then [] else natDigitsAux fuel (n / 10) ++ [digitChar (n % 10)]

/-- Decimal digit characters of a natural number, most significant first,
as produced by `fmt`'s `%d` verb (`0` prints as `"0"`). -/
def natDigits (n : Nat) : List Char :=
  if n = 0 then ['0'] else natDigitsAux n n

/-- Go `fmt.Sprintf("%0*d", width, v)`: sign, then zeros padding the digit
count up to `width` (the width includes the sign position). -/
def goPadInt (width : Nat) (v : Int) : List Char :=
  let ds := natDigits v.natAbs
  let sign := if v < 0 then ['-'] else []
  sign ++ List.replicate (width - (ds.length + sign.length)) '0' ++ ds

/-! ## `FormatDuration` (domain/time utilities) -/

/-- Go `func lessThanHalf(x, y Int) bool`: `x+x < y` (on the values the
claims reach, the `uint64` casts in the original are value-preserving). -/
def lessThanHalf (x y : Int) : Bool := x + x < y

/-- Go `Duration.Round(m)` from the standard library `time` package,
with `minDuration`/`maxDuration` the `int64` extremes. -/
def goDurationRound (d m : Int) : Int :=
  if m ≤ 0 then d
  else
    let r := Int.tmod d m
    if d < 0 then
      let r := -r
      if lessThanHalf r m then d + r
      else if d - m + r < d then d - m + r
      else -maxInt64 - 1
    else
      if lessThanHalf r m then d - r
      else if d + m - r > d then d + m - r
      else maxInt64

/-- Go `FormatDuration` (domain package): rounds to the millisecond and
renders `"%02d:%02d:%02d.%03d"` from hour/minute/second/millisecond
components obtained by truncated division. -/
def formatDurationChars (dur0 : Int) : List Char :=
  let dur := goDurationRound dur0 nsMillisecond
  let h := Int.tdiv dur nsHour
  let dur := dur - h * nsHour
  let m := Int.tdiv dur nsMinute
  let dur := dur - m * nsMinute
  let s := Int.tdiv dur nsSecond
  let dur := dur - s * nsSecond
  let ms := Int.tdiv dur nsMillisecond
  goPadInt 2 h ++ ':' :: goPadInt 2 m ++ ':' :: goPadInt 2 s ++ '.' :: goPadInt 3 ms

/-- String form of `FormatDuration`. -/
def formatDuration (dur : Int) : String := String.mk (formatDurationChars dur)

/-! ## Go `time.ParseDuration` and `ParseDurationFromString` -/

/-- Is the character an ASCII decimal digit (Go `c >= '0' && c <= '9'`). -/
def isDigitCh (c : Char) : Bool := 48 ≤ c.toNat ∧ c.toNat ≤ 57

/-- Numeric value of a digit character. -/
def chDigit (c : Char) : Int := (c.toNat : Int) - 48

/-- Loop body of Go `time.leadingInt`: consume leading decimal digits into an
accumulator, failing (as Go does) once the accumulator would pass `2^63`. -/
def goLeadingIntAux (x : Int) : List Char → Option (Int × List Char)
  | [] => some (x, [])
  | c :: rest =>
    if isDigitCh c then
      if x > Int.tdiv (2 ^ 63) 10 then none
      else
        let x1 := x * 10 + chDigit c
        if x1 > 2 ^ 63 then none
        else goLeadingIntAux x1 rest
    else some (x, c :: rest)

/-- Go `time.leadingInt`. -/
def goLeadingInt (s : List Char) : Option (Int × List Char) := goLeadingIntAux 0 s

/-- Loop body of Go `time.leadingFraction`: consume leading digits into a
value/scale pair; on overflow it keeps consuming without updating.  Go keeps
`scale` in a `float64`, exact on every reachable value, so it is an `Int`
here. -/
def goLeadingFractionAux (x scale : Int) (overflow : Bool) :
    List Char → Int × Int × List Char
  | [] => (x, scale, [])
  | c :: rest =>
    if isDigitCh c then
      if overflow then goLeadingFractionAux x scale overflow rest
      else if x > Int.tdiv (2 ^ 63 - 1) 10 then goLeadingFractionAux x scale true rest
      else
        let y := x * 10 + chDigit c
        if y > 2 ^ 63 then goLeadingFractionAux x scale true rest
        else goLeadingFractionAux y (scale * 10) overflow rest
    else (x, scale, c :: rest)

/-- Go `time.leadingFraction`. -/
def goLeadingFraction (s : List Char) : Int × Int × List Char :=
  goLeadingFractionAux 0 1 false s

/-- Unit scan of Go `time.ParseDuration`: take characters up to the next
digit or `'.'`. -/
def goTakeUnit : List Char → List Char × List Char
  | [] => ([], [])
  | c :: rest =>
    if c = '.' ∨ isDigitCh c then ([], c :: rest)
    else
      let (u, r) := goTakeUnit rest
      (c :: u, r)

/-- Go `time.unitMap`: nanoseconds per recognised unit suffix. -/
def goUnitMap : List Char → Option Int
  | ['n', 's'] => some 1
  | ['u', 's'] => some 1000
  | ['µ', 's'] => some 1000
  | ['μ', 's'] => some 1000
  | ['m', 's'] => some 1000000
  | ['s'] => some 1000000000
  | ['m'] => some 60000000000
  | ['h'] => some 3600000000000
  | _ => none

/-- One-component-per-step loop of Go `time.ParseDuration`.  Each step
consumes at least one character, so the character count is enough fuel; the
accumulated total `d` is kept non-negative exactly as Go keeps it in a
`uint64`.  The fractional contribution `f * (unit / scale)` is computed by Go
in `float64`; on every value a claim reaches (`scale` dividing `unit`, products
below `2^53`) that float computation is exact, so it is modelled as truncated
integer division.

One component of the loop: consume `[int][.frac]unit`, returning the
remaining input and the accumulated total, or `none` on any of Go's error
conditions. -/
def goParseDurationStep (s : List Char) (d : Int) : Option (List Char × Int) :=
  match s with
  | [] => none
  | c0 :: _ =>
    if ¬(c0 = '.' ∨ isDigitCh c0) then none
    else
      match goLeadingInt s with
      | none => none
      | some (v, s1) =>
        let pre : Bool := s1.length ≠ s.length
        let hasDot : Bool := s1.head? = some '.'
        let t := if hasDot then s1.tail else s1
        let fsr := if hasDot then goLeadingFraction t else (0, 1, t)
        let f := fsr.1
        let scale := fsr.2.1
        let s2 := fsr.2.2
        let post : Bool := hasDot ∧ s2.length ≠ t.length
        if ¬pre ∧ ¬post then none
        else
          let (u, s3) := goTakeUnit s2
          if u = [] then none
          else
            match goUnitMap u with
            | none => none
            | some unit =>
              if v > Int.tdiv (2 ^ 63) unit then none
              else
                let v := v * unit
                let v := if f > 0 then v + Int.tdiv (f * unit) scale else v
                if v > 2 ^ 63 then none
                else
                  let d := d + v
                  if d > 2 ^ 63 then none
                  else some (s3, d)

/-- The component loop of Go `time.ParseDuration`: each step consumes at
least one character, so the character count is enough fuel. -/
def goParseDurationLoop : Nat → List Char → Int → Option Int
  | _, [], d => some d
  | 0, _ :: _, _ => none
  | fuel + 1, c0 :: s, d =>
    match goParseDurationStep (c0 :: s) d with
    | none => none
    | some (s3, d) => goParseDurationLoop fuel s3 d

/-- Go `time.ParseDuration` on a character list: optional sign, the special
`"0"`, then unit components. -/
def goParseDuration (s0 : List Char) : Option Int :=
  let neg : Bool := s0.head? = some '-'
  let s := if s0.head? = some '-' ∨ s0.head? = some '+' then s0.tail else s0
  if s = ['0'] then some 0
  else if s = [] then none
  else
    match goParseDurationLoop s.length s 0 with
    | none => none
    | some d =>
      if neg then some (-d)
      else if d > 2 ^ 63 - 1 then none
      else some d

/-- Go `strings.Split(s, ":")` on a character list (single-character
separator). -/
def splitOnColon : List Char → List (List Char)
  | [] => [[]]
  | c :: rest =>
    let r := splitOnColon rest
    if c = ':' then [] :: r
    else
      match r with
      | [] => [[c]]
      | h :: t => (c :: h) :: t

/-- Go `ParseDurationFromString` (config package): split on `':'`, require
three parts, glue them as `"AhBmCs"` and hand to `time.ParseDuration`. -/
def parseDurationFromString (s : String) : Option Int :=
  let parts := splitOnColon s.data
  match parts with
  | [p0, p1, p2] => goParseDuration (p0 ++ 'h' :: p1 ++ 'm' :: p2 ++ ['s'])
  | _ => none

/-! ## Go `time.Parse` with layout `15:04:05.000`, and `ParseTimeFromString` -/

/-- Go `getnum` from the `time` package: one or two leading digits
(`fixed` requires exactly two). -/
def goGetnum (fixed : Bool) : List Char → Option (Int × List Char)
  | [] => none
  | [c] =>
    if isDigitCh c then
      if fixed then none else some (chDigit c, [])
    else none
  | c1 :: c2 :: rest =>
    if isDigitCh c1 then
      if isDigitCh c2 then some (chDigit c1 * 10 + chDigit c2, rest)
      else if fixed then none
      else some (chDigit c1, c2 :: rest)
    else none

/-- Go `time.Parse` restricted to the layout `"15:04:05.000"` used by
`TimeLayout`: 1-2 digit hour, fixed 2-digit minute and second, a dot and
exactly three fractional digits, nothing left over, and the range checks
`hour < 24`, `minute < 60`, `second < 60` that `time.Parse` applies.
The result is the nanosecond offset into the (year 0) day. -/
def goParseClock (s : List Char) : Option Int :=
  match goGetnum false s with
  | none => none
  | some (h, s1) =>
    match s1 with
    | ':' :: s2 =>
      match goGetnum true s2 with
      | none => none
      | some (m, s3) =>
        match s3 with
        | ':' :: s4 =>
          match goGetnum true s4 with
          | none => none
          | some (sec, s5) =>
            match s5 with
            | '.' :: d1 :: d2 :: d3 :: s6 =>
              if isDigitCh d1 ∧ isDigitCh d2 ∧ isDigitCh d3 then
                if s6 = [] then
                  if h < 24 ∧ m < 60 ∧ sec < 60 then
                    let ms := chDigit d1 * 100 + chDigit d2 * 10 + chDigit d3
                    some (((h * 3600 + m * 60 + sec) * 1000 + ms) * nsMillisecond)
                  else none
                else none
              else none
            | _ => none
        | _ => none
    | _ => none

/-- Go `strings.Trim(s, "[]")`: strip every leading and trailing `'['` or
`']'`. -/
def trimSquare (s : List Char) : List Char :=
  let isCut : Char → Bool := fun c => c = '[' ∨ c = ']'
  ((s.dropWhile isCut).reverse.dropWhile isCut).reverse

/-- Go `ParseTimeFromString` (domain package): trim brackets, then
`time.Parse(TimeLayout, ...)`. -/
def parseTimeFromString (s : String) : Option Int :=
  goParseClock (trimSquare s.data)

/-! ## `strconv.Atoi` and speed -/

/-- Value of a big-endian digit-character list. -/
def digitsVal (l : List Char) : Int :=
  l.foldl (fun a c => a * 10 + chDigit c) 0

/-- Go `strconv.Atoi`: optional sign, at least one digit, nothing else,
`int64` range check. -/
def goAtoi (s : String) : Option Int :=
  let (neg, ds) :=
    match s.data with
    | '-' :: t => (true, t)
    | '+' :: t => (false, t)
    | l => (false, l)
  if ds = [] then none
  else if ¬ds.all isDigitCh then none
  else
    let v := digitsVal ds
    let v := if neg then -v else v
    if v < -(2 ^ 63) ∨ v > 2 ^ 63 - 1 then none else some v

/-- Go `CalculateSpeed` (domain package): `distance / duration.Seconds()`,
zero for non-positive durations.  Modelled exactly over `Rat`. -/
def calculateSpeed (distance : Rat) (duration : Int) : Rat :=
  if duration ≤ 0 then 0
  else distance / ((duration : Rat) / 1000000000)

/-- Go `fmt.Sprintf("%.3f", x)`: round to three decimals (ties to even, as
the binary-to-decimal conversion of `fmt` does) and render. -/
def fmtF3 (x : Rat) : String :=
  let scaled := x * 1000
  let fl : Int := ⌊scaled⌋
  let fr := scaled - (fl : Rat)
  let n : Int :=
    if fr > 1 / 2 then fl + 1
    else if fr < 1 / 2 then fl
    else if fl % 2 = 0 then fl else fl + 1
  let sign : List Char := if n < 0 then ['-'] else []
  String.mk
    (sign ++ natDigits (Int.tdiv n.natAbs 1000).toNat ++
      '.' :: goPadInt 3 (Int.tmod n.natAbs 1000))

/-! ## Domain data model -/

/-- Go `CompetitorStatus` (a closed set of status strings in the source). -/
inductive CompetitorStatus
  | registered
  | readyToStart
  | started
  | firing
  | penalized
  | finished
  | notFinished
  | notStarted
  | disqualified
deriving DecidableEq, Repr

/-- Go `LapDetail`. -/
structure LapDetail where
  duration : Int
  speed : Rat
deriving DecidableEq, Repr

/-- Go `PenaltyDetail`. -/
structure PenaltyDetail where
  totalDuration : Int
  averageSpeed : Rat
deriving DecidableEq, Repr

/-- Go `Competitor` (domain package), field for field. -/
structure Competitor where
  id : Int
  status : CompetitorStatus
  scheduledStartTime : Int
  actualStartTime : Int
  finishTime : Int
  lastEventTime : Int
  currentLap : Int
  currentLapStartTime : Int
  lapDetails : List LapDetail
  lastFiringRangeEntered : Int
  totalFiringRangesCompleted : Int
  hitsThisRange : Int
  totalHits : Int
  totalShots : Int
  missesToPenalize : Int
  penaltyStartTime : Int
  totalPenaltyTime : Int
  totalPenaltyLaps : Int
  penaltyDetails : PenaltyDetail
  disqualificationReason : String
deriving DecidableEq, Repr

/-- Go `NewCompetitor`: zero-valued record except id, status and the
registration timestamp. -/
def newCompetitor (id : Int) (registrationTime : Int) : Competitor where
  id := id
  status := .registered
  scheduledStartTime := goZeroTime
  actualStartTime := goZeroTime
  finishTime := goZeroTime
  lastEventTime := registrationTime
  currentLap := 0
  currentLapStartTime := goZeroTime
  lapDetails := []
  lastFiringRangeEntered := 0
  totalFiringRangesCompleted := 0
  hitsThisRange := 0
  totalHits := 0
  totalShots := 0
  missesToPenalize := 0
  penaltyStartTime := goZeroTime
  totalPenaltyTime := 0
  totalPenaltyLaps := 0
  penaltyDetails := ⟨0, 0⟩
  disqualificationReason := ""

/-- Go `Competitor.CalculateTotalTime`: total race time and an ok flag. -/
def calculateTotalTime (c : Competitor) : Int × Bool :=
  if c.status ≠ .finished then (0, false)
  else if timeIsZero c.actualStartTime then (0, false)
  else
    let startDiff := c.actualStartTime - c.scheduledStartTime
    let startDiff := if startDiff < 0 then 0 else startDiff
    (c.finishTime - c.actualStartTime + startDiff, true)

/-- Go `Competitor.FinalStatusString`. -/
def finalStatusString (c : Competitor) : String :=
  match c.status with
  | .finished =>
    let (t, ok) := calculateTotalTime c
    if ok then formatDuration t else "[Error Calculating Time]"
  | .notFinished => "[NotFinished]"
  | .notStarted => "[NotStarted]"
  | .disqualified =>
    let reason := if c.disqualificationReason ≠ "" then ": " ++ c.disqualificationReason else ""
    "[Disqualified" ++ reason ++ "]"
  | _ => "[In Progress]"

/-- Go event-kind constants (`EventID`). -/
def evRegister : Int := 1

def evSetStartTime : Int := 2

def evOnStartLine : Int := 3

def evStarted : Int := 4

def evEnterFiringRange : Int := 5

def evHitTarget : Int := 6

def evLeaveFiringRange : Int := 7

def evEnterPenaltyLaps : Int := 8

def evLeavePenaltyLaps : Int := 9

def evEndLap : Int := 10

def evCannotContinue : Int := 11

def evDisqualified : Int := 32

def evFinished : Int := 33

/-- Go `Event` (the `RawLine` field, used only in error text, is elided). -/
structure Event where
  timestamp : Int
  id : Int
  competitorID : Int
  extraParameters : List String
  isIncoming : Bool
deriving DecidableEq, Repr

/-- Go `ParseEventFromString` classification of a kind as incoming
(line 65 of the simulator domain source). -/
def eventIsIncoming (id : Int) : Bool := evRegister ≤ id ∧ id ≤ evCannotContinue

/-- Go `Config` after loading (string fields plus their parsed values). -/
structure Config where
  laps : Int
  lapLen : Rat
  penaltyLen : Rat
  firingLines : Int
  start : String
  startDelta : String
  parsedStart : Int
  parsedStartDelta : Int
deriving DecidableEq, Repr

/-- The competitor map (Go `map[int]*Competitor`). -/
def CompetitorMap := Int → Option Competitor

/-- Map update (Go map assignment). -/
def mapInsert (m : CompetitorMap) (k : Int) (v : Competitor) : CompetitorMap :=
  fun i => if i = k then some v else m i

/-- Go `Simulator`. -/
structure Simulator where
  config : Config
  competitors : CompetitorMap
  events : List Event
  currentTime : Int
  outputLog : List Event

/-! ## Simulator core: finish, disqualify, process one event -/

/-- Is the status one of the four terminal ones tested by
`FinishCompetitor` and `DisqualifyCompetitor`. -/
def isTerminalStatus (s : CompetitorStatus) : Bool :=
  s = .finished ∨ s = .notFinished ∨ s = .notStarted ∨ s = .disqualified

/-- The `PenaltyDetail` summary computed on finishing (shared by
`FinishCompetitor` and the `CannotContinue` branch). -/
def penaltySummary (cfg : Config) (c : Competitor) : PenaltyDetail :=
  if c.totalPenaltyLaps > 0 ∧ cfg.penaltyLen > 0 then
    let totalPenaltyDistance := (c.totalPenaltyLaps : Rat) * cfg.penaltyLen
    ⟨c.totalPenaltyTime, calculateSpeed totalPenaltyDistance c.totalPenaltyTime⟩
  else c.penaltyDetails

/-- Go `Simulator.FinishCompetitor`: no-op on a terminal status, otherwise
set `Finished`, record the finish time, finalize the penalty summary and
append a derived `Finished` event to the history and the narration log.
Returns the updated simulator and competitor (the Go original mutates the
competitor in place through its pointer). -/
def finishCompetitor (sim : Simulator) (c : Competitor) (finishTime : Int) :
    Simulator × Competitor :=
  if isTerminalStatus c.status then (sim, c)
  else
    let c := { c with status := .finished, finishTime := finishTime }
    let c := { c with penaltyDetails := penaltySummary sim.config c }
    let finishEvent : Event :=
      { timestamp := finishTime, id := evFinished, competitorID := c.id
        extraParameters := [], isIncoming := false }
    ({ sim with
        events := sim.events ++ [finishEvent]
        outputLog := sim.outputLog ++ [finishEvent] }, c)

/-- Go `Simulator.DisqualifyCompetitor`: no-op on a terminal status;
otherwise record the time, map the reason `"NotStarted"` to status
`NotStarted` and any other reason to `Disqualified`, and append a derived
`Disqualified` event unless one for this competitor is already in the
history. -/
def disqualifyCompetitor (sim : Simulator) (c : Competitor) (dqTime : Int)
    (reason : String) : Simulator × Competitor :=
  if isTerminalStatus c.status then (sim, c)
  else
    let c := { c with finishTime := dqTime }
    let c :=
      { c with
        status := if reason = "NotStarted" then .notStarted else .disqualified
        disqualificationReason := reason }
    let dqEvent : Event :=
      { timestamp := dqTime, id := evDisqualified, competitorID := c.id
        extraParameters := [reason], isIncoming := false }
    let alreadyDQEventExists :=
      sim.events.any fun ev =>
        ¬ev.isIncoming ∧ ev.id = evDisqualified ∧ ev.competitorID = c.id
    if alreadyDQEventExists then (sim, c)
    else
      ({ sim with
          events := sim.events ++ [dqEvent]
          outputLog := sim.outputLog ++ [dqEvent] }, c)

/-- Store an updated competitor back into the map slot the event addressed
(in Go the slot holds the very object the branch mutated). -/
def simPut (sim : Simulator) (key : Int) (c : Competitor) : Simulator :=
  { sim with competitors := mapInsert sim.competitors key c }

/-- Go `Simulator.ProcessEvent`, branch for `SetStartTime`. -/
def stepSetStartTime (sim : Simulator) (c : Competitor) (e : Event) :
    Simulator × Option String :=
  match e.extraParameters with
  | [] => (simPut sim e.competitorID c, some "start time missing for SetStartTime event")
  | p0 :: _ =>
    match parseTimeFromString ("[" ++ p0 ++ "]") with
    | none => (simPut sim e.competitorID c, some "invalid start time format")
    | some scheduledTime =>
      (simPut sim e.competitorID { c with scheduledStartTime := scheduledTime }, none)

/-- Go `Simulator.ProcessEvent`, branch for `Started`. -/
def stepStarted (sim : Simulator) (c : Competitor) (e : Event) :
    Simulator × Option String :=
  if ¬timeIsZero c.scheduledStartTime ∧
      e.timestamp > c.scheduledStartTime + sim.config.parsedStartDelta then
    let (sim, c) := disqualifyCompetitor sim c e.timestamp "NotStarted"
    (simPut sim e.competitorID c, none)
  else
    (simPut sim e.competitorID
      { c with
        status := .started
        actualStartTime := e.timestamp
        currentLap := 1
        currentLapStartTime := e.timestamp }, none)

/-- Go `Simulator.ProcessEvent`, branch for `EnterFiringRange`. -/
def stepEnterFiringRange (sim : Simulator) (c : Competitor) (e : Event) :
    Simulator × Option String :=
  if c.totalFiringRangesCompleted ≥ sim.config.firingLines then
    let (sim, c) := disqualifyCompetitor sim c e.timestamp "Extra firing line"
    (simPut sim e.competitorID c, none)
  else
    match e.extraParameters with
    | [] => (simPut sim e.competitorID c, some "missing milestone number in event 5")
    | p0 :: _ =>
      match goAtoi p0 with
      | none => (simPut sim e.competitorID c, some "invalid milestone number in event 5")
      | some rangeNum =>
        let expected := c.totalFiringRangesCompleted + 1
        if rangeNum ≠ expected ∧ (rangeNum ≤ 0 ∨ rangeNum > sim.config.firingLines) then
          (simPut sim e.competitorID c, some "invalid milestone number from event")
        else if rangeNum > sim.config.firingLines then
          (simPut sim e.competitorID c, some "milestone is more than the configured milestones")
        else
          (simPut sim e.competitorID
            { c with
              status := .firing
              hitsThisRange := 0
              lastFiringRangeEntered := rangeNum }, none)

/-- Go `Simulator.ProcessEvent`, branch for `LeaveFiringRange`. -/
def stepLeaveFiringRange (sim : Simulator) (c : Competitor) (e : Event) :
    Simulator × Option String :=
  if c.status ≠ .firing then
    (simPut sim e.competitorID { c with lastFiringRangeEntered := 0 }, none)
  else
    let fired : Bool :=
      c.lastFiringRangeEntered > 0 ∧
        c.lastFiringRangeEntered > c.totalFiringRangesCompleted
    let shotsThisRange : Int := if fired then 5 else 0
    let c :=
      if fired then
        { c with
          totalShots := c.totalShots + 5
          totalFiringRangesCompleted := c.totalFiringRangesCompleted + 1 }
      else c
    let misses := shotsThisRange - c.hitsThisRange
    let misses := if misses < 0 then 0 else misses
    let c := { c with missesToPenalize := c.missesToPenalize + misses }
    let c := if c.missesToPenalize = 0 then { c with status := .started } else c
    (simPut sim e.competitorID { c with hitsThisRange := 0, lastFiringRangeEntered := 0 }, none)

/-- Go `Simulator.ProcessEvent`, branch for `LeavePenaltyLaps`. -/
def stepLeavePenaltyLaps (sim : Simulator) (c : Competitor) (e : Event) :
    Simulator × Option String :=
  if c.status ≠ .penalized ∧ timeIsZero c.penaltyStartTime then
    (simPut sim e.competitorID c, none)
  else
    let c :=
      if timeIsZero c.penaltyStartTime then c
      else
        let penaltyDuration := e.timestamp - c.penaltyStartTime
        let c :=
          if penaltyDuration < 0 then c
          else { c with totalPenaltyTime := c.totalPenaltyTime + penaltyDuration }
        { c with penaltyStartTime := goZeroTime }
    let c :=
      { c with
        totalPenaltyLaps := c.totalPenaltyLaps + c.missesToPenalize
        missesToPenalize := 0
        status := .started }
    (simPut sim e.competitorID c, none)

/-- Go `Simulator.ProcessEvent`, branch for `EndLap`.  With
`CurrentLap <= 0` the Go original panics on a negative slice index or a
negative `make` count; that abort is modelled as an error. -/
def stepEndLap (sim : Simulator) (c : Competitor) (e : Event) :
    Simulator × Option String :=
  let lapDuration := e.timestamp - c.currentLapStartTime
  let lapSpeed := calculateSpeed sim.config.lapLen lapDuration
  if c.currentLap ≤ 0 then
    (simPut sim e.competitorID c, some "runtime panic: lap index out of range")
  else
    let details :=
      if (c.lapDetails.length : Int) < c.currentLap then
        c.lapDetails ++
          List.replicate (c.currentLap - c.lapDetails.length).toNat ⟨0, 0⟩
      else c.lapDetails
    let c := { c with lapDetails := details.set (c.currentLap - 1).toNat ⟨lapDuration, lapSpeed⟩ }
    if c.currentLap ≥ sim.config.laps then
      let (sim, c) := finishCompetitor sim c e.timestamp
      (simPut sim e.competitorID c, none)
    else
      (simPut sim e.competitorID
        { c with currentLap := c.currentLap + 1, currentLapStartTime := e.timestamp },
        none)

/-- Go `Simulator.ProcessEvent`, branch for `CannotContinue`.  The guard in
the source checks `Finished`, `NotStarted` and `Disqualified` but not
`NotFinished`. -/
def stepCannotContinue (sim : Simulator) (c : Competitor) (e : Event) :
    Simulator × Option String :=
  if c.status ≠ .finished ∧ c.status ≠ .notStarted ∧ c.status ≠ .disqualified then
    let reason :=
      if e.extraParameters ≠ [] then String.intercalate " " e.extraParameters
      else "Reason not specified"
    let c :=
      { c with
        status := .notFinished
        finishTime := e.timestamp
        disqualificationReason := reason }
    let c :=
      if c.totalPenaltyLaps > 0 ∧ sim.config.penaltyLen > 0 then
        { c with penaltyDetails := penaltySummary sim.config c }
      else c
    (simPut sim e.competitorID c, none)
  else (simPut sim e.competitorID c, none)

/-- Go `Simulator.ProcessEvent`: record the time, append the event to the
history (and, for incoming events, to the narration log), create or warn on
`Register`, reject unregistered competitors, update `LastEventTime` for
every kind but `SetStartTime`, then dispatch on the kind; unknown kinds only
warn. -/
def processEvent (sim0 : Simulator) (e : Event) : Simulator × Option String :=
  let sim :=
    { sim0 with
      currentTime := e.timestamp
      events := sim0.events ++ [e]
      outputLog := if e.isIncoming then sim0.outputLog ++ [e] else sim0.outputLog }
  match sim.competitors e.competitorID with
  | none =>
    if e.id = evRegister then
      (simPut sim e.competitorID (newCompetitor e.competitorID e.timestamp), none)
    else (sim, some "event for unregistered competitor")
  | some c0 =>
    if e.id = evRegister then (sim, none)
    else
      let c := if e.id ≠ evSetStartTime then { c0 with lastEventTime := e.timestamp } else c0
      if e.id = evSetStartTime then stepSetStartTime sim c e
      else if e.id = evOnStartLine then
        if c.status = .registered ∨ c.status = .readyToStart then
          (simPut sim e.competitorID { c with status := .readyToStart }, none)
        else (simPut sim e.competitorID c, none)
      else if e.id = evStarted then stepStarted sim c e
      else if e.id = evEnterFiringRange then stepEnterFiringRange sim c e
      else if e.id = evHitTarget then
        if c.status = .firing then
          (simPut sim e.competitorID
            { c with hitsThisRange := c.hitsThisRange + 1, totalHits := c.totalHits + 1 },
            none)
        else (simPut sim e.competitorID c, none)
      else if e.id = evLeaveFiringRange then stepLeaveFiringRange sim c e
      else if e.id = evEnterPenaltyLaps then
        if sim.config.penaltyLen ≤ 0 then
          (simPut sim e.competitorID { c with status := .started }, none)
        else if c.missesToPenalize = 0 then
          (simPut sim e.competitorID { c with status := .started }, none)
        else
          (simPut sim e.competitorID
            { c with status := .penalized, penaltyStartTime := e.timestamp }, none)
      else if e.id = evLeavePenaltyLaps then stepLeavePenaltyLaps sim c e
      else if e.id = evEndLap then stepEndLap sim c e
      else if e.id = evCannotContinue then stepCannotContinue sim c e
      else (simPut sim e.competitorID c, none)

/-! ## Ranking (`GetSortedCompetitors`) -/

/-- Go `statusRank` closure inside `GetSortedCompetitors`. -/
def statusRank : CompetitorStatus → Int
  | .notFinished => 1
  | .notStarted => 2
  | .disqualified => 3
  | _ => 4

/-- The `less` comparison passed by `GetSortedCompetitors` to
`sort.SliceStable`, transcribed branch for branch. -/
def competitorLess (c1 c2 : Competitor) : Bool :=
  let c1IsFinished := c1.status = .finished
  let c2IsFinished := c2.status = .finished
  if c1IsFinished ∧ ¬c2IsFinished then true
  else if ¬c1IsFinished ∧ c2IsFinished then false
  else if c1IsFinished ∧ c2IsFinished then
    let (t1, ok1) := calculateTotalTime c1
    let (t2, ok2) := calculateTotalTime c2
    if ok1 ∧ ok2 then
      if t1 ≠ t2 then t1 < t2 else c1.id < c2.id
    else if ok1 ∧ ¬ok2 then true
    else if ¬ok1 ∧ ok2 then false
    else c1.id < c2.id
  else
    let rank1 := statusRank c1.status
    let rank2 := statusRank c2.status
    if rank1 ≠ rank2 then rank1 < rank2 else c1.id < c2.id

/-- The non-strict order induced by the `less` comparator: `a` may stay
before `b` exactly when `less b a` is false.  A stable sort by
`competitorLess` (Go `sort.SliceStable`) produces the unique stable
arrangement that is `List.Sorted` for this relation. -/
def goLe (a b : Competitor) : Prop := ¬competitorLess b a = true

instance : DecidableRel goLe := fun _ _ => instDecidableNot

/-- Go `Simulator.GetSortedCompetitors` on a list of the map's competitors:
a stable sort by `competitorLess` (modelled with insertion sort, which is
stable and agrees with `sort.SliceStable` whenever the comparator is a
strict weak order, proved below). -/
def getSortedCompetitors (l : List Competitor) : List Competitor :=
  List.insertionSort goLe l

/-! ## Configuration loading -/

/-- The decoded JSON fields of `Config` before validation (reading the file
and unmarshalling the JSON are elided; this is the struct those steps
produce). -/
structure ConfigInput where
  laps : Int
  lapLen : Rat
  penaltyLen : Rat
  firingLines : Int
  start : String
  startDelta : String
deriving DecidableEq, Repr

/-- Go `LoadConfiguration`, from the decoded struct on: parse the start
time, parse the start delta, then require `Laps`, `LapLen`, `PenaltyLen`
and `FiringLines` all strictly positive. -/
def loadConfiguration (i : ConfigInput) : Except String Config :=
  match parseTimeFromString ("[" ++ i.start ++ "]") with
  | none => .error "error parsing start time"
  | some parsedStart =>
    match parseDurationFromString i.startDelta with
    | none => .error "error parsing start delta"
    | some parsedStartDelta =>
      if i.laps ≤ 0 ∨ i.lapLen ≤ 0 ∨ i.penaltyLen ≤ 0 ∨ i.firingLines ≤ 0 then
        .error "incorrect values in configuration"
      else
        .ok
          { laps := i.laps, lapLen := i.lapLen, penaltyLen := i.penaltyLen
            firingLines := i.firingLines, start := i.start
            startDelta := i.startDelta, parsedStart := parsedStart
            parsedStartDelta := parsedStartDelta }

/-! ## Report formatting -/

/-- The per-lap entries of `formatLapDetails` (report package), before they
are comma-joined: the computation of `totalExpectedLapEntries` and the loop
body, entry for entry. -/
def formatLapDetailsParts (lapDetails : List LapDetail) (status : CompetitorStatus)
    (currentLap : Int) : List String :=
  let numLapsCompleted : Int := lapDetails.length
  let totalExpectedLapEntries :=
    if status = .notStarted then 0
    else if status ≠ .finished ∧ currentLap > numLapsCompleted then currentLap
    else numLapsCompleted
  (List.range totalExpectedLapEntries.toNat).map fun i =>
    match lapDetails[i]? with
    | some d =>
      if d.duration > 0 then
        "\x7b" ++ formatDuration d.duration ++ ", " ++ fmtF3 d.speed ++ "\x7d"
      else "\x7b,\x7d"
    | none => "\x7b,\x7d"

/-- Go `formatLapDetails`: the bracketed, comma-joined entry list. -/
def formatLapDetails (lapDetails : List LapDetail) (status : CompetitorStatus)
    (currentLap : Int) : String :=
  "[" ++ String.intercalate ", " (formatLapDetailsParts lapDetails status currentLap) ++ "]"

/-- Go `formatPenaltyDetails`. -/
def formatPenaltyDetails (penalty : PenaltyDetail) (hadPenalties : Bool) : String :=
  if ¬hadPenalties then "\x7b,\x7d"
  else if penalty.totalDuration ≤ 0 then
    "\x7b" ++ formatDuration 0 ++ ", " ++ fmtF3 0 ++ "\x7d"
  else
    "\x7b" ++ formatDuration penalty.totalDuration ++ ", " ++ fmtF3 penalty.averageSpeed ++ "\x7d"

/-- Go `formatCompetitorResult`: one report line. -/
def formatCompetitorResult (c : Competitor) : String :=
  finalStatusString c ++ " " ++ toString c.id ++ " " ++
    formatLapDetails c.lapDetails c.status c.currentLap ++ " " ++
    formatPenaltyDetails c.penaltyDetails (c.totalPenaltyLaps > 0) ++ " " ++
    toString c.totalHits ++ "/" ++ toString c.totalShots

/-! ## Concrete fixtures used by witnesses and counterexamples -/

/-- Clock time `h:m:s.ms` as an `Int` time (an offset into the parsed day). -/
def clockNs (h m s ms : Int) : Int := ((h * 3600 + m * 60 + s) * 1000 + ms) * 1000000

/-- A loaded configuration: 2 laps of 3500 m, one firing line, penalty laps
of 150 m, start 10:00:00.000, start delta 30 s. -/
def exConfig : Config where
  laps := 2
  lapLen := 3500
  penaltyLen := 150
  firingLines := 1
  start := "10:00:00.000"
  startDelta := "00:00:30.000"
  parsedStart := clockNs 10 0 0 0
  parsedStartDelta := 30000000000

/-- Competitor map holding exactly the given competitors, keyed by id. -/
def mapOfList (cs : List Competitor) : CompetitorMap :=
  fun i => cs.find? fun c => c.id == i

/-- A simulator over `exConfig` with the given competitors and no history. -/
def mkSim (cs : List Competitor) : Simulator where
  config := exConfig
  competitors := mapOfList cs
  events := []
  currentTime := goZeroTime
  outputLog := []

/-- An event record with the incoming flag `ParseEventFromString` would
assign. -/
def mkEvent (t : Int) (id cid : Int) (ps : List String) : Event where
  timestamp := t
  id := id
  competitorID := cid
  extraParameters := ps
  isIncoming := eventIsIncoming id

/-- A freshly registered competitor with id 1. -/
def baseCompetitor : Competitor := newCompetitor 1 (clockNs 9 59 0 0)

/-! ## C10: re-registering an existing competitor changes no competitor -/

/-- C10: applying a `Register` event for a competitor id that already exists
returns no error and leaves the whole competitor map — the existing
competitor and every other one — exactly as it was. -/
theorem register_existing_id_no_error_and_map_unchanged
    (sim : Simulator) (e : Event) (c : Competitor)
    (hid : e.id = evRegister) (hex : sim.competitors e.competitorID = some c) :
    (processEvent sim e).2 = none ∧
      (processEvent sim e).1.competitors = sim.competitors := by
  simp [processEvent, hid, hex]

/-- Witness for C10 at a concrete simulator: competitor 1 is registered and
a second `Register` for id 1 arrives. -/
theorem register_existing_id_no_error_and_map_unchanged_witness :
    (processEvent (mkSim [baseCompetitor]) (mkEvent (clockNs 9 59 30 0) 1 1 [])).2 = none ∧
      (processEvent (mkSim [baseCompetitor])
          (mkEvent (clockNs 9 59 30 0) 1 1 [])).1.competitors =
        (mkSim [baseCompetitor]).competitors :=
  register_existing_id_no_error_and_map_unchanged (mkSim [baseCompetitor])
    (mkEvent (clockNs 9 59 30 0) 1 1 []) baseCompetitor rfl rfl

/-! ## C3: terminal transitions -/

/-- A competitor already terminal with status `NotFinished`. -/
def c3Before : Competitor :=
  { baseCompetitor with
    status := .notFinished
    finishTime := clockNs 10 30 0 0
    disqualificationReason := "old reason" }

/-- A second `CannotContinue` event for the already-`NotFinished`
competitor. -/
def c3Ev : Event := mkEvent (clockNs 10 40 0 0) evCannotContinue 1 ["knee", "injury"]

/-- C3 fails on the code: the `CannotContinue` guard omits `NotFinished`,
so re-applying `CannotContinue` to a competitor already in the terminal
status `NotFinished` overwrites the finish time and the reason instead of
being a no-op. -/
theorem cannotContinue_on_notFinished_overwrites :
    ((processEvent (mkSim [c3Before]) c3Ev).1.competitors 1).map
        (fun c => (c.status, c.finishTime, c.disqualificationReason)) =
      some (.notFinished, clockNs 10 40 0 0, "knee injury") ∧
      c3Before.finishTime ≠ clockNs 10 40 0 0 ∧
      c3Before.disqualificationReason ≠ "knee injury" :=
  ⟨by decide, by decide, by decide⟩

/-! ## C5: entering a firing range after completing every line -/

/-- A competitor who is already terminal (`Finished`) and has completed all
configured firing lines. -/
def c5Before : Competitor :=
  { baseCompetitor with status := .finished, totalFiringRangesCompleted := 1 }

/-- An `EnterFiringRange` event for that competitor. -/
def c5Ev : Event := mkEvent (clockNs 10 10 0 0) evEnterFiringRange 1 ["2"]

/-- C5 as stated is false: with all configured lines completed,
`EnterFiringRange` returns no error at all (the Go branch warns,
disqualifies and returns `nil`), and here — the competitor being already
terminal — it does not disqualify either. -/
theorem enterFiringRange_when_complete_returns_no_error :
    (processEvent (mkSim [c5Before]) c5Ev).2 = none ∧
      ((processEvent (mkSim [c5Before]) c5Ev).1.competitors 1).map
          (fun c => c.status) = some .finished ∧
      c5Before.totalFiringRangesCompleted ≥ (mkSim [c5Before]).config.firingLines :=
  ⟨by decide, by decide, by decide⟩

/-- C5 amended: for a competitor in a non-terminal status who has completed
all configured firing lines, `EnterFiringRange` returns no error (only a
warning is logged) and disqualifies the competitor with reason
"Extra firing line": status `Disqualified`, finish time the event
timestamp. -/
theorem enterFiringRange_when_complete_disqualifies
    (sim : Simulator) (e : Event) (c : Competitor)
    (hid : e.id = evEnterFiringRange)
    (hex : sim.competitors e.competitorID = some c)
    (hterm : isTerminalStatus c.status = false)
    (hfull : c.totalFiringRangesCompleted ≥ sim.config.firingLines) :
    (processEvent sim e).2 = none ∧
      (processEvent sim e).1.competitors e.competitorID =
        some { c with
          lastEventTime := e.timestamp
          finishTime := e.timestamp
          status := .disqualified
          disqualificationReason := "Extra firing line" } := by
  have hne : ¬("Extra firing line" = "NotStarted") := by decide
  have hn : ¬(c.status = CompetitorStatus.finished ∨ c.status = CompetitorStatus.notFinished ∨
      c.status = CompetitorStatus.notStarted ∨ c.status = CompetitorStatus.disqualified) := by
    simpa [isTerminalStatus] using hterm
  simp only [processEvent, hid, hex]
  norm_num [evRegister, evSetStartTime, evOnStartLine, evStarted, evEnterFiringRange,
    stepEnterFiringRange, disqualifyCompetitor, simPut]
  simp only [hterm, hfull, if_pos, if_true, Bool.false_eq_true, if_false, hne]
  split <;> simp [mapInsert, hfull, hne]

/-- Witness for the amended C5: a competitor in status `Started` with the
single configured firing line already completed. -/
theorem enterFiringRange_when_complete_disqualifies_witness :
    (processEvent
        (mkSim [{ baseCompetitor with
          status := .started, totalFiringRangesCompleted := 1 }]) c5Ev).2 = none ∧
      (processEvent
          (mkSim [{ baseCompetitor with
            status := .started, totalFiringRangesCompleted := 1 }]) c5Ev).1.competitors 1 =
        some { { baseCompetitor with
            status := .started, totalFiringRangesCompleted := 1 } with
          lastEventTime := c5Ev.timestamp
          finishTime := c5Ev.timestamp
          status := .disqualified
          disqualificationReason := "Extra firing line" } :=
  enterFiringRange_when_complete_disqualifies _ c5Ev
    { baseCompetitor with status := .started, totalFiringRangesCompleted := 1 }
    rfl rfl (by decide) (by decide)

/-! ## C8: events of unknown kind -/

/-- An event of the unknown kind 99 for the registered competitor 1. -/
def c8Ev : Event := mkEvent (clockNs 10 0 0 0) 99 1 []

/-- C8 as stated is false: an event whose kind is neither incoming
(1..11) nor derived (32/33), applied for a registered competitor, reaches
the `default` branch, which logs a warning and returns `nil` — there is no
hard error. -/
theorem unknown_event_kind_returns_no_error :
    (processEvent (mkSim [baseCompetitor]) c8Ev).2 = none ∧
      ¬(evRegister ≤ c8Ev.id ∧ c8Ev.id ≤ evCannotContinue) ∧
      c8Ev.id ≠ evDisqualified ∧ c8Ev.id ≠ evFinished :=
  ⟨by decide, by decide, by decide, by decide⟩

/-- C8 amended: applying an event of a kind that is neither incoming
(`Register`..`CannotContinue`) nor a known derived kind for a registered
competitor returns no error; the only change to the competitor map is the
addressed competitor's `LastEventTime`. -/
theorem unknown_event_kind_warns_only
    (sim : Simulator) (e : Event) (c : Competitor)
    (hex : sim.competitors e.competitorID = some c)
    (hin : ¬(evRegister ≤ e.id ∧ e.id ≤ evCannotContinue))
    (_h32 : e.id ≠ evDisqualified) (_h33 : e.id ≠ evFinished) :
    (processEvent sim e).2 = none ∧
      (processEvent sim e).1.competitors =
        mapInsert sim.competitors e.competitorID { c with lastEventTime := e.timestamp } := by
  simp only [evRegister, evCannotContinue, not_and, not_le] at hin
  have h1 : e.id ≠ 1 := by intro h; omega
  have h2 : e.id ≠ 2 := by intro h; omega
  have h3 : e.id ≠ 3 := by intro h; omega
  have h4 : e.id ≠ 4 := by intro h; omega
  have h5 : e.id ≠ 5 := by intro h; omega
  have h6 : e.id ≠ 6 := by intro h; omega
  have h7 : e.id ≠ 7 := by intro h; omega
  have h8 : e.id ≠ 8 := by intro h; omega
  have h9 : e.id ≠ 9 := by intro h; omega
  have h10 : e.id ≠ 10 := by intro h; omega
  have h11 : e.id ≠ 11 := by intro h; omega
  simp [processEvent, hex, simPut, evRegister, evSetStartTime, evOnStartLine, evStarted,
    evEnterFiringRange, evHitTarget, evLeaveFiringRange, evEnterPenaltyLaps,
    evLeavePenaltyLaps, evEndLap, evCannotContinue,
    h1, h2, h3, h4, h5, h6, h7, h8, h9, h10, h11]

/-- Witness for the amended C8, at kind 99 for registered competitor 1. -/
theorem unknown_event_kind_warns_only_witness :
    (processEvent (mkSim [baseCompetitor]) c8Ev).2 = none ∧
      (processEvent (mkSim [baseCompetitor]) c8Ev).1.competitors =
        mapInsert (mkSim [baseCompetitor]).competitors c8Ev.competitorID
          { baseCompetitor with lastEventTime := c8Ev.timestamp } :=
  unknown_event_kind_warns_only (mkSim [baseCompetitor]) c8Ev baseCompetitor rfl
    (by decide) (by decide) (by decide)

/-! ## C1: a Started event after the start deadline -/

/-- A competitor who already started on time (status `Started`, actual start
recorded, lap 1 in progress). -/
def c1Before : Competitor :=
  { baseCompetitor with
    status := .started
    scheduledStartTime := clockNs 10 0 0 0
    actualStartTime := clockNs 10 0 0 0
    currentLap := 1
    currentLapStartTime := clockNs 10 0 0 0 }

/-- A duplicate `Started` event past the deadline (delta is 30 s). -/
def c1Ev : Event := mkEvent (clockNs 10 5 0 0) evStarted 1 []

/-- C1 as stated is false on the code: for a competitor who already
started, a late `Started` event still disqualifies with reason
"NotStarted", but the actual start time remains set and `CurrentLap`
remains 1 — the claim promises both stay unset/zero for every competitor
with a non-zero scheduled start. -/
theorem late_started_keeps_actual_start_when_already_started :
    ((processEvent (mkSim [c1Before]) c1Ev).1.competitors 1).map
        (fun c => (c.status, c.actualStartTime, c.currentLap)) =
      some (.notStarted, clockNs 10 0 0 0, 1) ∧
      ¬timeIsZero (clockNs 10 0 0 0) = true ∧
      c1Before.scheduledStartTime ≠ goZeroTime ∧
      c1Ev.timestamp > c1Before.scheduledStartTime + (mkSim [c1Before]).config.parsedStartDelta :=
  ⟨by decide, by decide, by decide, by decide⟩

/-- C1 amended: for a competitor who has not yet started (status
`Registered` or `ReadyToStart`, actual start unset, lap counter 0) with a
non-zero scheduled start time, a `Started` event strictly after
scheduled start + configured delta disqualifies with reason "NotStarted"
(status `NotStarted`, finish time the event timestamp), leaves the actual
start time unset and `CurrentLap` at 0, never sets `Started`, and returns
no error. -/
theorem late_started_disqualifies_not_started
    (sim : Simulator) (e : Event) (c : Competitor)
    (hid : e.id = evStarted)
    (hex : sim.competitors e.competitorID = some c)
    (hsched : c.scheduledStartTime ≠ goZeroTime)
    (hstat : c.status = .registered ∨ c.status = .readyToStart)
    (hact : c.actualStartTime = goZeroTime)
    (hlap : c.currentLap = 0)
    (hlate : e.timestamp > c.scheduledStartTime + sim.config.parsedStartDelta) :
    (processEvent sim e).2 = none ∧
      ∃ c2, (processEvent sim e).1.competitors e.competitorID = some c2 ∧
        c2.status = .notStarted ∧
        c2.disqualificationReason = "NotStarted" ∧
        c2.actualStartTime = goZeroTime ∧
        c2.currentLap = 0 ∧
        c2.status ≠ .started ∧
        c2.finishTime = e.timestamp := by
  have hterm : ¬(c.status = CompetitorStatus.finished ∨ c.status = CompetitorStatus.notFinished ∨
      c.status = CompetitorStatus.notStarted ∨ c.status = CompetitorStatus.disqualified) := by
    rcases hstat with h | h <;> simp [h]
  simp only [processEvent, hid, hex]
  norm_num [evRegister, evSetStartTime, evOnStartLine, evStarted,
    stepStarted, disqualifyCompetitor, isTerminalStatus, timeIsZero, simPut]
  rw [if_pos ⟨hsched, hlate⟩]
  simp only [hterm, Bool.false_eq_true, if_false]
  refine ⟨by trivial, ?_⟩
  refine ⟨{ c with
    lastEventTime := e.timestamp
    finishTime := e.timestamp
    status := .notStarted
    disqualificationReason := "NotStarted" }, ?_, rfl, rfl, hact, hlap, by simp, rfl⟩
  split <;> simp [mapInsert]

/-! ## C2: leaving the expected firing range -/

/-- Behaviour of the `LeaveFiringRange` branch on a firing competitor whose
last-entered line is the next expected one. -/
theorem stepLeaveFiringRange_settles
    (sim : Simulator) (e : Event) (c : Competitor)
    (hst : c.status = .firing)
    (hlast : c.lastFiringRangeEntered = c.totalFiringRangesCompleted + 1)
    (hnn : 0 ≤ c.totalFiringRangesCompleted) :
    (stepLeaveFiringRange sim c e).2 = none ∧
      ∃ c2, (stepLeaveFiringRange sim c e).1.competitors e.competitorID = some c2 ∧
        c2.totalShots = c.totalShots + 5 ∧
        c2.totalFiringRangesCompleted = c.totalFiringRangesCompleted + 1 ∧
        c2.missesToPenalize = c.missesToPenalize + max 0 (5 - c.hitsThisRange) ∧
        c2.hitsThisRange = 0 ∧
        c2.lastFiringRangeEntered = 0 ∧
        (c2.status = .started ↔ c2.missesToPenalize = 0) := by
  have hb : decide (c.lastFiringRangeEntered > 0 ∧
      c.lastFiringRangeEntered > c.totalFiringRangesCompleted) = true :=
    decide_eq_true ⟨by omega, by omega⟩
  simp only [stepLeaveFiringRange, hst, hb, ne_eq, not_true_eq_false, Bool.false_eq_true,
    if_false, if_true]
  refine ⟨trivial, ?_⟩
  by_cases hz : (c.missesToPenalize + if 5 - c.hitsThisRange < 0 then 0 else 5 - c.hitsThisRange) = 0
  · simp only [if_pos hz]
    refine ⟨{ c with
        status := .started
        totalFiringRangesCompleted := c.totalFiringRangesCompleted + 1
        totalShots := c.totalShots + 5
        missesToPenalize := c.missesToPenalize + if 5 - c.hitsThisRange < 0 then 0 else 5 - c.hitsThisRange
        hitsThisRange := 0
        lastFiringRangeEntered := 0 }, by simp [simPut, mapInsert], rfl, rfl, ?_, rfl, rfl, ?_⟩
    · show c.missesToPenalize + (if 5 - c.hitsThisRange < 0 then 0 else 5 - c.hitsThisRange) =
        c.missesToPenalize + max 0 (5 - c.hitsThisRange)
      split <;> omega
    · exact iff_of_true rfl hz
  · simp only [if_neg hz]
    refine ⟨{ c with
        status := .firing
        totalFiringRangesCompleted := c.totalFiringRangesCompleted + 1
        totalShots := c.totalShots + 5
        missesToPenalize := c.missesToPenalize + if 5 - c.hitsThisRange < 0 then 0 else 5 - c.hitsThisRange
        hitsThisRange := 0
        lastFiringRangeEntered := 0 }, by simp [simPut, mapInsert], rfl, rfl, ?_, rfl, rfl, ?_⟩
    · show c.missesToPenalize + (if 5 - c.hitsThisRange < 0 then 0 else 5 - c.hitsThisRange) =
        c.missesToPenalize + max 0 (5 - c.hitsThisRange)
      split <;> omega
    · exact iff_of_false (by simp) hz
/-- C2: for a competitor in status `Firing` whose last-entered line is the
next expected one (`TotalFiringRangesCompleted + 1`, counters being
non-negative), `LeaveFiringRange` adds the fixed 5 shots, completes one more
line, owes `max 0 (5 - HitsThisRange)` more misses, clears the per-range
counters, and moves to `Started` exactly when the resulting misses owed are
zero. -/
theorem leaveFiringRange_settles_range
    (sim : Simulator) (e : Event) (c : Competitor)
    (hid : e.id = evLeaveFiringRange)
    (hex : sim.competitors e.competitorID = some c)
    (hst : c.status = .firing)
    (hlast : c.lastFiringRangeEntered = c.totalFiringRangesCompleted + 1)
    (hnn : 0 ≤ c.totalFiringRangesCompleted) :
    (processEvent sim e).2 = none ∧
      ∃ c2, (processEvent sim e).1.competitors e.competitorID = some c2 ∧
        c2.totalShots = c.totalShots + 5 ∧
        c2.totalFiringRangesCompleted = c.totalFiringRangesCompleted + 1 ∧
        c2.missesToPenalize = c.missesToPenalize + max 0 (5 - c.hitsThisRange) ∧
        c2.hitsThisRange = 0 ∧
        c2.lastFiringRangeEntered = 0 ∧
        (c2.status = .started ↔ c2.missesToPenalize = 0) := by
  have hstep := stepLeaveFiringRange_settles
    { sim with
      currentTime := e.timestamp
      events := sim.events ++ [e]
      outputLog := if e.isIncoming then sim.outputLog ++ [e] else sim.outputLog }
    e { c with lastEventTime := e.timestamp } hst hlast hnn
  have hpe : processEvent sim e =
      stepLeaveFiringRange
        { sim with
          currentTime := e.timestamp
          events := sim.events ++ [e]
          outputLog := if e.isIncoming then sim.outputLog ++ [e] else sim.outputLog }
        { c with lastEventTime := e.timestamp } e := by
    simp [processEvent, hid, hex, evRegister, evSetStartTime, evOnStartLine, evStarted,
      evEnterFiringRange, evHitTarget, evLeaveFiringRange]
  rw [hpe]
  simpa using hstep

/-- Witness for C2: a firing competitor on line 1 (none completed yet) with
3 hits this range; leaving owes 2 misses and keeps status `Firing`. -/
theorem leaveFiringRange_settles_range_witness :
    (processEvent
        (mkSim [{ baseCompetitor with
          status := .firing, lastFiringRangeEntered := 1, hitsThisRange := 3,
          totalHits := 3 }])
        (mkEvent (clockNs 10 6 0 0) 7 1 [])).2 = none ∧
      ∃ c2, (processEvent
          (mkSim [{ baseCompetitor with
            status := .firing, lastFiringRangeEntered := 1, hitsThisRange := 3,
            totalHits := 3 }])
          (mkEvent (clockNs 10 6 0 0) 7 1 [])).1.competitors 1 = some c2 ∧
        c2.totalShots = 0 + 5 ∧
        c2.totalFiringRangesCompleted = 0 + 1 ∧
        c2.missesToPenalize = 0 + max 0 (5 - 3) ∧
        c2.hitsThisRange = 0 ∧
        c2.lastFiringRangeEntered = 0 ∧
        (c2.status = .started ↔ c2.missesToPenalize = 0) :=
  leaveFiringRange_settles_range
    (mkSim [{ baseCompetitor with
      status := .firing, lastFiringRangeEntered := 1, hitsThisRange := 3,
      totalHits := 3 }])
    (mkEvent (clockNs 10 6 0 0) 7 1 [])
    { baseCompetitor with
      status := .firing, lastFiringRangeEntered := 1, hitsThisRange := 3,
      totalHits := 3 }
    rfl rfl rfl rfl (by decide)

/-- A registered competitor with a scheduled start who never started. -/
def c1Ready : Competitor :=
  { baseCompetitor with status := .readyToStart, scheduledStartTime := clockNs 10 0 0 0 }

/-- Witness for the amended C1: the ready competitor receives `Started` at
10:05:00, well past 10:00:30. -/
theorem late_started_disqualifies_not_started_witness :
    (processEvent (mkSim [c1Ready]) c1Ev).2 = none ∧
      ∃ c2, (processEvent (mkSim [c1Ready]) c1Ev).1.competitors 1 = some c2 ∧
        c2.status = .notStarted ∧
        c2.disqualificationReason = "NotStarted" ∧
        c2.actualStartTime = goZeroTime ∧
        c2.currentLap = 0 ∧
        c2.status ≠ .started ∧
        c2.finishTime = c1Ev.timestamp :=
  late_started_disqualifies_not_started (mkSim [c1Ready]) c1Ev c1Ready rfl rfl
    (by decide) (Or.inr rfl) rfl rfl (by decide)

/-! ## C6: configuration validation -/

/-- A decoded configuration with a zero penalty-lap length and everything
else valid. -/
def c6Input : ConfigInput where
  laps := 2
  lapLen := 3500
  penaltyLen := 0
  firingLines := 1
  start := "10:00:00.000"
  startDelta := "00:00:30.000"

/-- C6 as stated is false: `LoadConfiguration` rejects a penalty-lap length
of 0 — the positivity check is `PenaltyLen <= 0` like the other three
fields — even though every other field is valid and both time strings
parse. -/
theorem loadConfiguration_rejects_zero_penalty_len :
    ¬(loadConfiguration c6Input).isOk = true ∧
      c6Input.penaltyLen = 0 ∧
      0 < c6Input.laps ∧ 0 < c6Input.lapLen ∧ 0 < c6Input.firingLines ∧
      (parseTimeFromString ("[" ++ c6Input.start ++ "]")).isSome = true ∧
      (parseDurationFromString c6Input.startDelta).isSome = true :=
  ⟨by decide, by decide, by decide, by decide, by decide, by decide, by decide⟩

/-- C6 amended: `LoadConfiguration` succeeds exactly when the start time and
start delta strings parse and all four numeric fields — lap count, lap
length, penalty-lap length and firing-line count — are strictly positive;
a zero penalty-lap length is rejected like any other non-positive field. -/
theorem loadConfiguration_ok_iff (i : ConfigInput) :
    (loadConfiguration i).isOk = true ↔
      ((parseTimeFromString ("[" ++ i.start ++ "]")).isSome = true ∧
        (parseDurationFromString i.startDelta).isSome = true ∧
        0 < i.laps ∧ 0 < i.lapLen ∧ 0 < i.penaltyLen ∧ 0 < i.firingLines) := by
  unfold loadConfiguration
  rcases hps : parseTimeFromString ("[" ++ i.start ++ "]") with _ | t
  · simp [hps, Except.isOk, Except.toBool]
  rcases hpd : parseDurationFromString i.startDelta with _ | d
  · simp [hps, hpd, Except.isOk, Except.toBool]
  by_cases hbad : i.laps ≤ 0 ∨ i.lapLen ≤ 0 ∨ i.penaltyLen ≤ 0 ∨ i.firingLines ≤ 0
  · simp only [hps, hpd, if_pos hbad]
    simp only [Except.isOk, Except.toBool]
    constructor
    · intro h; cases h
    · intro h
      exfalso
      rcases hbad with h1 | h1 | h1 | h1 <;> [exact absurd h.2.2.1 (by omega);
        exact absurd h.2.2.2.1 (by exact not_lt.mpr h1);
        exact absurd h.2.2.2.2.1 (by exact not_lt.mpr h1);
        exact absurd h.2.2.2.2.2 (by omega)]
  · simp only [hps, hpd, if_neg hbad]
    push_neg at hbad
    simp only [Except.isOk, Except.toBool]
    constructor
    · intro _
      exact ⟨rfl, rfl, hbad.1, hbad.2.1, hbad.2.2.1, hbad.2.2.2⟩
    · intro _; trivial

/-! ## C7: lap-list entries of a report line -/

/-- A competitor disqualified for not starting (no laps begun). -/
def c7Comp : Competitor := { baseCompetitor with status := .notStarted }

/-- C7 as stated is false: the lap list is not one entry per configured
lap — `formatLapDetails` never consults the configuration; for a
`NotStarted` competitor it renders zero entries although two laps are
configured. -/
theorem lap_list_entries_not_per_configured_lap :
    ((formatLapDetailsParts c7Comp.lapDetails c7Comp.status c7Comp.currentLap).length : Int) ≠
      exConfig.laps ∧
      (formatLapDetailsParts c7Comp.lapDetails c7Comp.status c7Comp.currentLap).length = 0 :=
  ⟨by decide, by decide⟩

/-- C7 amended: the lap list contains one entry per lap the competitor has
entered — none for a `NotStarted` competitor, one per recorded lap for a
`Finished` one, and otherwise `max (recorded laps) CurrentLap` many — and
the entry for lap `i` is a `(formatted duration, speed to 3 decimals)` pair
exactly when a positive lap duration is recorded at index `i`, the empty
pair otherwise. -/
theorem lap_list_one_entry_per_entered_lap
    (lapDetails : List LapDetail) (status : CompetitorStatus) (currentLap : Int) :
    (formatLapDetailsParts lapDetails status currentLap).length =
      (if status = .notStarted then 0
       else if status = .finished then lapDetails.length
       else max lapDetails.length currentLap.toNat) ∧
    ∀ i : Nat, i < (formatLapDetailsParts lapDetails status currentLap).length →
      (formatLapDetailsParts lapDetails status currentLap).getD i "" =
        (match lapDetails[i]? with
         | some d =>
           if d.duration > 0 then
             "\x7b" ++ formatDuration d.duration ++ ", " ++ fmtF3 d.speed ++ "\x7d"
           else "\x7b,\x7d"
         | none => "\x7b,\x7d") := by
  constructor
  · simp only [formatLapDetailsParts, List.length_map, List.length_range]
    by_cases h0 : status = CompetitorStatus.notStarted
    · simp [h0]
    by_cases h1 : status = CompetitorStatus.finished
    · simp [h0, h1]
    · simp only [h0, h1, if_false, ne_eq, not_false_iff, true_and]
      by_cases h2 : currentLap > (lapDetails.length : Int)
      · rw [if_pos h2]
        omega
      · rw [if_neg h2]
        omega
  · intro i hi
    simp only [formatLapDetailsParts, List.length_map, List.length_range] at hi
    simp only [formatLapDetailsParts]
    rw [List.getD_eq_getElem _ _ (by simpa using hi)]
    simp [hi]

/-! ## C4: the ranking order -/

/-- Lexicographic strict order on integer triples. -/
def lex3Lt (a b : Int × Int × Int) : Prop :=
  a.1 < b.1 ∨ (a.1 = b.1 ∧ (a.2.1 < b.2.1 ∨ (a.2.1 = b.2.1 ∧ a.2.2 < b.2.2)))

/-- The sort key realised by the Go comparator: group 0 = finished with a
computable total time, keyed by (time, id); group 1 = finished without one,
keyed by id; group 2 = everyone else, keyed by (status rank, id). -/
def sortKey (c : Competitor) : Int × Int × Int :=
  if c.status = .finished then
    if (calculateTotalTime c).2 then (0, (calculateTotalTime c).1, c.id)
    else (1, c.id, 0)
  else (2, statusRank c.status, c.id)

/-- The Go comparator is exactly the lexicographic order on `sortKey` (hence
a strict weak order, which is what `sort.SliceStable` requires). -/
theorem competitorLess_iff_lex (c1 c2 : Competitor) :
    competitorLess c1 c2 = true ↔ lex3Lt (sortKey c1) (sortKey c2) := by
  rcases h1 : calculateTotalTime c1 with ⟨t1, ok1⟩
  rcases h2 : calculateTotalTime c2 with ⟨t2, ok2⟩
  by_cases hf1 : c1.status = CompetitorStatus.finished <;>
    by_cases hf2 : c2.status = CompetitorStatus.finished
  · cases ok1 <;> cases ok2 <;>
      simp [competitorLess, sortKey, lex3Lt, hf1, hf2, h1, h2]
    split <;> omega
  · cases ok1 <;> simp [competitorLess, sortKey, lex3Lt, hf1, hf2, h1, h2]
  · cases ok2 <;> simp [competitorLess, sortKey, lex3Lt, hf1, hf2, h1, h2]
  · simp [competitorLess, sortKey, lex3Lt, hf1, hf2, h1, h2]
    split <;> omega

/-- The induced non-strict relation in terms of keys. -/
theorem goLe_iff_not_lex (a b : Competitor) :
    goLe a b ↔ ¬lex3Lt (sortKey b) (sortKey a) := by
  rw [goLe, competitorLess_iff_lex]

instance : IsTrans Competitor goLe where
  trans a b c hab hbc := by
    rw [goLe_iff_not_lex] at *
    rcases ha : sortKey a with ⟨a1, a2, a3⟩
    rcases hb : sortKey b with ⟨b1, b2, b3⟩
    rcases hc : sortKey c with ⟨c1, c2, c3⟩
    rw [ha, hb] at hab
    rw [hb, hc] at hbc
    simp only [lex3Lt] at *
    omega

instance : IsTotal Competitor goLe where
  total a b := by
    rw [goLe_iff_not_lex, goLe_iff_not_lex]
    rcases sortKey a with ⟨a1, a2, a3⟩
    rcases sortKey b with ⟨b1, b2, b3⟩
    simp only [lex3Lt]
    omega

/-- The claim's severity rank: NotFinished before NotStarted before
Disqualified before any other status. -/
def specStatusRank (s : CompetitorStatus) : Int :=
  if s = .notFinished then 1
  else if s = .notStarted then 2
  else if s = .disqualified then 3
  else 4

/-- The claim's total race time: finish minus actual start, plus
`max 0 (actual start - scheduled start)`. -/
def specTotalTime (c : Competitor) : Int :=
  (c.finishTime - c.actualStartTime) + max 0 (c.actualStartTime - c.scheduledStartTime)

/-- The ordering relation stated by the claim: every Finished competitor
precedes every non-Finished one; Finished competitors ascend by total time
with ties by id; non-Finished ones ascend by severity rank with ties by
id. -/
def specLeB (a b : Competitor) : Bool :=
  if a.status = .finished ∧ b.status ≠ .finished then true
  else if a.status ≠ .finished ∧ b.status = .finished then false
  else if a.status = .finished ∧ b.status = .finished then
    specTotalTime a < specTotalTime b ∨ (specTotalTime a = specTotalTime b ∧ a.id ≤ b.id)
  else
    specStatusRank a.status < specStatusRank b.status ∨
      (specStatusRank a.status = specStatusRank b.status ∧ a.id ≤ b.id)

/-- On a finished competitor with a recorded actual start, the code's total
time is the claim's formula, and it is marked computable. -/
theorem calculateTotalTime_of_started (c : Competitor)
    (hf : c.status = .finished) (ha : c.actualStartTime ≠ goZeroTime) :
    calculateTotalTime c = (specTotalTime c, true) := by
  have hmax : (if c.actualStartTime - c.scheduledStartTime < 0 then 0
      else c.actualStartTime - c.scheduledStartTime) =
      max 0 (c.actualStartTime - c.scheduledStartTime) := by
    rcases lt_or_le (c.actualStartTime - c.scheduledStartTime) 0 with h | h
    · rw [if_pos h, max_eq_left h.le]
    · rw [if_neg (not_lt.mpr h), max_eq_right h]
  simp only [calculateTotalTime, specTotalTime, hf, timeIsZero, ne_eq]
  rw [if_neg (by simp), if_neg (by simp [ha]), hmax]

/-- The two rank functions agree. -/
theorem specStatusRank_eq (s : CompetitorStatus) : specStatusRank s = statusRank s := by
  cases s <;> rfl

/-- Pointwise: whenever the Go comparator lets `a` stay before `b`, the
claim's ordering holds of the pair — provided any finished competitor
involved has a recorded actual start. -/
theorem goLe_imp_specLe (a b : Competitor)
    (ha : a.status = .finished → a.actualStartTime ≠ goZeroTime)
    (hb : b.status = .finished → b.actualStartTime ≠ goZeroTime) :
    goLe a b → specLeB a b = true := by
  intro h
  rw [goLe] at h
  by_cases hf1 : a.status = CompetitorStatus.finished <;>
    by_cases hf2 : b.status = CompetitorStatus.finished
  · simp only [competitorLess, hf1, hf2,
      calculateTotalTime_of_started a hf1 (ha hf1),
      calculateTotalTime_of_started b hf2 (hb hf2)] at h
    simp only [specLeB, hf1, hf2]
    simp at h ⊢
    split at h <;> omega
  · simp [specLeB, hf1, hf2]
  · simp [competitorLess, hf1, hf2] at h
  · simp only [competitorLess, hf1, hf2] at h
    simp only [specLeB, hf1, hf2]
    simp [specStatusRank_eq] at h ⊢
    split at h <;> omega

/-- C4: `GetSortedCompetitors` permutes the collection into an order where
every Finished competitor precedes every non-Finished one, Finished
competitors ascend by total time (finish − actual start plus
`max 0 (actual start − scheduled start)`) with ties by id, and non-Finished
competitors ascend by the severity rank NotFinished < NotStarted <
Disqualified < anything else, with ties by id — provided (as holds for
every collection a finished run produces) each Finished competitor has a
recorded actual start. -/
theorem getSortedCompetitors_ranking (l : List Competitor)
    (hok : ∀ c ∈ l, c.status = .finished → c.actualStartTime ≠ goZeroTime) :
    (getSortedCompetitors l).Perm l ∧
      (getSortedCompetitors l).Pairwise fun a b => specLeB a b = true := by
  refine ⟨List.perm_insertionSort goLe l, ?_⟩
  have hs : List.Sorted goLe (List.insertionSort goLe l) :=
    List.sorted_insertionSort goLe l
  refine List.Pairwise.imp_of_mem ?_ hs
  intro a b hma hmb hab
  have hal : a ∈ l := (List.perm_insertionSort goLe l).mem_iff.mp hma
  have hbl : b ∈ l := (List.perm_insertionSort goLe l).mem_iff.mp hmb
  exact goLe_imp_specLe a b (hok a hal) (hok b hbl) hab

/-- A finished competitor for the C4 witness. -/
def c4Fin : Competitor :=
  { baseCompetitor with
    status := .finished
    scheduledStartTime := clockNs 10 0 0 0
    actualStartTime := clockNs 10 0 30 0
    finishTime := clockNs 10 20 0 0 }

/-- A not-started competitor (id 2) for the C4 witness. -/
def c4NS : Competitor :=
  { newCompetitor 2 (clockNs 9 59 0 0) with status := .notStarted }

/-- Witness for C4 on a concrete two-element collection listed in the
reverse of its ranking order. -/
theorem getSortedCompetitors_ranking_witness :
    (∀ c ∈ [c4NS, c4Fin], c.status = .finished → c.actualStartTime ≠ goZeroTime) ∧
      ((getSortedCompetitors [c4NS, c4Fin]).Perm [c4NS, c4Fin] ∧
        (getSortedCompetitors [c4NS, c4Fin]).Pairwise fun a b => specLeB a b = true) :=
  ⟨by decide, getSortedCompetitors_ranking [c4NS, c4Fin] (by decide)⟩

/-! ## C9: the duration codec round-trip -/

/-- C9 as stated is false for the general round-trip: the duration 0.5 ms
is first rounded to the millisecond by `FormatDuration`, so it formats as
"00:00:00.001" and re-parses as 1 ms, not the original value. -/
theorem duration_roundtrip_fails_below_millisecond :
    parseDurationFromString (formatDuration 500000) ≠ some 500000 ∧
      parseDurationFromString (formatDuration 500000) = some 1000000 :=
  ⟨by decide, by decide⟩

/-- Digit characters produced by `digitChar` are decimal digits. -/
theorem isDigitCh_digitChar (d : Nat) (hd : d < 10) : isDigitCh (digitChar d) = true := by
  interval_cases d <;> decide

/-- The numeric value of a produced digit character. -/
theorem chDigit_digitChar (d : Nat) (hd : d < 10) : chDigit (digitChar d) = d := by
  interval_cases d <;> decide

/-- A digit character's value lies between 0 and 9. -/
theorem chDigit_bounds (c : Char) (hc : isDigitCh c = true) :
    0 ≤ chDigit c ∧ chDigit c ≤ 9 := by
  simp only [isDigitCh, decide_eq_true_eq] at hc
  simp only [chDigit]
  omega

/-- Every character of `natDigitsAux` is a decimal digit. -/
theorem natDigitsAux_digits (fuel : Nat) :
    ∀ (n : Nat) (c : Char), c ∈ natDigitsAux fuel n → isDigitCh c = true := by
  induction fuel with
  | zero => intro n c hc; simp [natDigitsAux] at hc
  | succ fuel ih =>
    intro n c hc
    by_cases hn : n = 0
    · simp [natDigitsAux, hn] at hc
    · simp only [natDigitsAux, hn, if_false, List.mem_append, List.mem_singleton] at hc
      rcases hc with hc | hc
      · exact ih _ c hc
      · subst hc; exact isDigitCh_digitChar _ (Nat.mod_lt _ (by norm_num))

/-- Every character of `natDigits` is a decimal digit. -/
theorem natDigits_digits (n : Nat) (c : Char) (hc : c ∈ natDigits n) :
    isDigitCh c = true := by
  by_cases hn : n = 0
  · simp [natDigits, hn] at hc; subst hc; decide
  · simp only [natDigits, hn, if_false] at hc
    exact natDigitsAux_digits n n c hc

/-- Every character of a zero-padded non-negative integer is a decimal
digit. -/
theorem goPadInt_digits (w : Nat) (v : Int) (hv : 0 ≤ v) (c : Char)
    (hc : c ∈ goPadInt w v) : isDigitCh c = true := by
  simp only [goPadInt, not_lt.mpr hv, if_false, List.nil_append, List.mem_append] at hc
  rcases hc with hc | hc
  · rw [List.eq_of_mem_replicate hc]; decide
  · exact natDigits_digits _ c hc

/-- `natDigits` is never empty. -/
theorem natDigits_ne_nil (n : Nat) : natDigits n ≠ [] := by
  by_cases hn : n = 0
  · simp [natDigits, hn]
  · rcases Nat.exists_eq_succ_of_ne_zero hn with ⟨m, rfl⟩
    simp [natDigits, natDigitsAux]

/-- `goPadInt` of a non-negative value is never empty. -/
theorem goPadInt_ne_nil (w : Nat) (v : Int) (hv : 0 ≤ v) : goPadInt w v ≠ [] := by
  simp only [goPadInt, if_neg (not_lt.mpr hv), List.nil_append]
  intro h
  rcases List.append_eq_nil.mp h with ⟨_, h2⟩
  exact natDigits_ne_nil _ h2

/-- Length bound for `natDigitsAux`: below `10 ^ k` at most `k` digits are
produced. -/
theorem natDigitsAux_length_le (fuel : Nat) :
    ∀ (n k : Nat), n < 10 ^ k → (natDigitsAux fuel n).length ≤ k := by
  induction fuel with
  | zero => intro n k _; simp [natDigitsAux]
  | succ fuel ih =>
    intro n k hk
    by_cases hn : n = 0
    · simp [natDigitsAux, hn]
    · have hk1 : 1 ≤ k := by
        rcases Nat.eq_zero_or_pos k with h | h
        · subst h; simp at hk; omega
        · exact h
      have hdiv : n / 10 < 10 ^ (k - 1) := by
        rw [Nat.div_lt_iff_lt_mul (by norm_num)]
        calc n < 10 ^ k := hk
          _ = 10 ^ (k - 1) * 10 := by
            rw [← pow_succ]
            congr 1
            omega
      simp only [natDigitsAux, hn, if_false, List.length_append, List.length_singleton]
      have := ih (n / 10) (k - 1) hdiv
      omega

/-- Exact length of the zero-padded rendering when the value fits the
width. -/
theorem goPadInt_length (w : Nat) (v : Int) (hv : 0 ≤ v) (hw : v < 10 ^ w)
    (hw1 : 1 ≤ w) : (goPadInt w v).length = w := by
  simp only [goPadInt, not_lt.mpr hv, if_false, List.nil_append, List.length_append,
    List.length_replicate, List.length_nil, Nat.add_zero]
  have hlen : (natDigits v.natAbs).length ≤ w := by
    by_cases hz : v.natAbs = 0
    · simp [natDigits, hz]; omega
    · simp only [natDigits, hz, if_false]
      apply natDigitsAux_length_le
      have : (v.natAbs : Int) < (10 : Int) ^ w := by
        rw [Int.natAbs_of_nonneg hv]; exact_mod_cast hw
      exact_mod_cast this
  have hpos : 1 ≤ (natDigits v.natAbs).length :=
    List.length_pos.mpr (natDigits_ne_nil _)
  omega

/-- Folding digits of `natDigitsAux` onto an accumulator. -/
theorem foldl_natDigitsAux (fuel : Nat) :
    ∀ (n : Nat), n < 10 ^ fuel → ∀ (x : Int),
      List.foldl (fun a c => a * 10 + chDigit c) x (natDigitsAux fuel n) =
        x * 10 ^ (natDigitsAux fuel n).length + n := by
  induction fuel with
  | zero =>
    intro n hn x
    interval_cases n
    simp [natDigitsAux]
  | succ fuel ih =>
    intro n hn x
    by_cases hz : n = 0
    · simp [natDigitsAux, hz]
    · have hdiv : n / 10 < 10 ^ fuel := by
        rw [Nat.div_lt_iff_lt_mul (by norm_num)]
        calc n < 10 ^ (fuel + 1) := hn
          _ = 10 ^ fuel * 10 := by rw [pow_succ]
      have hmod : n % 10 < 10 := Nat.mod_lt _ (by norm_num)
      simp only [natDigitsAux, hz, if_false, List.foldl_append, List.foldl_cons,
        List.foldl_nil, List.length_append, List.length_singleton]
      rw [ih (n / 10) hdiv x, chDigit_digitChar _ hmod]
      have hsplit : (n : Int) = 10 * ((n : Nat) / 10 : Nat) + ((n : Nat) % 10 : Nat) := by
        push_cast
        omega
      rw [pow_succ]
      push_cast
      ring_nf
      ring_nf at hsplit
      omega

/-- The numeric value of `natDigits` is the number itself. -/
theorem digitsVal_natDigits (n : Nat) : digitsVal (natDigits n) = n := by
  by_cases hz : n = 0
  · subst hz; decide
  · simp only [digitsVal, natDigits, hz, if_false]
    rw [foldl_natDigitsAux n n (Nat.lt_pow_self (by norm_num) n) 0]
    simp

/-- Folding leading '0' characters leaves a zero accumulator at zero. -/
theorem foldl_replicate_zero (p : Nat) :
    List.foldl (fun a c => a * 10 + chDigit c) 0 (List.replicate p '0') = 0 := by
  induction p with
  | zero => rfl
  | succ p ih =>
    rw [List.replicate_succ, List.foldl_cons]
    have : (0 : Int) * 10 + chDigit '0' = 0 := by decide
    rw [this, ih]

/-- The numeric value of the zero-padded rendering is the value itself. -/
theorem digitsVal_goPadInt (w : Nat) (v : Int) (hv : 0 ≤ v) :
    digitsVal (goPadInt w v) = v := by
  simp only [goPadInt, not_lt.mpr hv, if_false, List.nil_append, digitsVal,
    List.foldl_append, List.length_nil, Nat.add_zero]
  rw [foldl_replicate_zero]
  have := digitsVal_natDigits v.natAbs
  simp only [digitsVal] at this
  rw [this, Int.natAbs_of_nonneg hv]

/-- Digit folds are monotone from a non-negative accumulator. -/
theorem foldl_step_bounds (l : List Char) :
    ∀ (x : Int), 0 ≤ x → (∀ c ∈ l, isDigitCh c = true) →
      x ≤ List.foldl (fun a c => a * 10 + chDigit c) x l ∧
        0 ≤ List.foldl (fun a c => a * 10 + chDigit c) x l := by
  induction l with
  | nil => intro x hx _; exact ⟨le_refl x, hx⟩
  | cons c l ih =>
    intro x hx hl
    have hc := chDigit_bounds c (hl c (List.mem_cons_self c l))
    have hx1 : 0 ≤ x * 10 + chDigit c := by nlinarith [hc.1]
    have hstep : x ≤ x * 10 + chDigit c := by nlinarith [hc.1]
    have := ih (x * 10 + chDigit c) hx1 (fun d hd => hl d (List.mem_cons_of_mem c hd))
    rw [List.foldl_cons]
    exact ⟨le_trans hstep this.1, this.2⟩

/-- Go `leadingInt` consumes exactly a digit block whose value stays small
and returns its value and the rest of the input. -/
theorem goLeadingIntAux_spec (ds : List Char) :
    ∀ (rest : List Char) (x : Int),
      (∀ c ∈ ds, isDigitCh c = true) →
      (∀ c, rest.head? = some c → isDigitCh c = false) →
      0 ≤ x →
      List.foldl (fun a c => a * 10 + chDigit c) x ds ≤ 9 * 10 ^ 17 →
      goLeadingIntAux x (ds ++ rest) =
        some (List.foldl (fun a c => a * 10 + chDigit c) x ds, rest) := by
  have hdiv : Int.tdiv (2 ^ 63) 10 = 922337203685477580 := by decide
  induction ds with
  | nil =>
    intro rest x _ hrest _ _
    cases rest with
    | nil => rfl
    | cons c r =>
      simp only [List.nil_append, goLeadingIntAux, hrest c rfl, Bool.false_eq_true, if_false]
      rfl
  | cons c ds ih =>
    intro rest x hds hrest hx hbound
    have hc : isDigitCh c = true := hds c (List.mem_cons_self c ds)
    have hcb := chDigit_bounds c hc
    have htail : ∀ d ∈ ds, isDigitCh d = true := fun d hd => hds d (List.mem_cons_of_mem c hd)
    have hx1 : 0 ≤ x * 10 + chDigit c := by nlinarith [hcb.1]
    have hb1 : List.foldl (fun a c => a * 10 + chDigit c) (x * 10 + chDigit c) ds ≤
        9 * 10 ^ 17 := by
      rw [← List.foldl_cons]
      exact hbound
    have hmono := foldl_step_bounds ds (x * 10 + chDigit c) hx1 htail
    have hxsmall : x ≤ 9 * 10 ^ 17 := by
      have := foldl_step_bounds (c :: ds) x hx hds
      exact le_trans this.1 hbound
    simp only [List.cons_append, goLeadingIntAux, hc, if_true]
    rw [if_neg (by rw [hdiv]; omega), if_neg (by omega)]
    rw [List.foldl_cons]
    exact ih rest (x * 10 + chDigit c) htail hrest hx1 hb1

/-- Go `leadingInt` on a padded integer followed by a non-digit. -/
theorem goLeadingInt_pad (w : Nat) (v : Int) (rest : List Char)
    (hv : 0 ≤ v) (hvb : v ≤ 9 * 10 ^ 17)
    (hrest : ∀ c, rest.head? = some c → isDigitCh c = false) :
    goLeadingInt (goPadInt w v ++ rest) = some (v, rest) := by
  have hval : List.foldl (fun a c => a * 10 + chDigit c) 0 (goPadInt w v) = v :=
    digitsVal_goPadInt w v hv
  rw [goLeadingInt, goLeadingIntAux_spec (goPadInt w v) rest 0
    (goPadInt_digits w v hv) hrest le_rfl (by rw [hval]; exact hvb), hval]

/-- Go `leadingFraction` consumes exactly a digit block, returning its value
and `10 ^ length` as the scale. -/
theorem goLeadingFractionAux_spec (ds : List Char) :
    ∀ (rest : List Char) (x scale : Int),
      (∀ c ∈ ds, isDigitCh c = true) →
      (∀ c, rest.head? = some c → isDigitCh c = false) →
      0 ≤ x →
      List.foldl (fun a c => a * 10 + chDigit c) x ds ≤ 9 * 10 ^ 17 →
      goLeadingFractionAux x scale false (ds ++ rest) =
        (List.foldl (fun a c => a * 10 + chDigit c) x ds, scale * 10 ^ ds.length, rest) := by
  have hdiv : Int.tdiv (2 ^ 63 - 1) 10 = 922337203685477580 := by decide
  induction ds with
  | nil =>
    intro rest x scale _ hrest _ _
    cases rest with
    | nil => simp [goLeadingFractionAux]
    | cons c r =>
      simp only [List.nil_append, goLeadingFractionAux, hrest c rfl, Bool.false_eq_true,
        if_false, List.length_nil, pow_zero, mul_one, List.foldl_nil]
  | cons c ds ih =>
    intro rest x scale hds hrest hx hbound
    have hc : isDigitCh c = true := hds c (List.mem_cons_self c ds)
    have hcb := chDigit_bounds c hc
    have htail : ∀ d ∈ ds, isDigitCh d = true := fun d hd => hds d (List.mem_cons_of_mem c hd)
    have hx1 : 0 ≤ x * 10 + chDigit c := by nlinarith [hcb.1]
    have hb1 : List.foldl (fun a c => a * 10 + chDigit c) (x * 10 + chDigit c) ds ≤
        9 * 10 ^ 17 := by
      rw [← List.foldl_cons]
      exact hbound
    have hmono := foldl_step_bounds ds (x * 10 + chDigit c) hx1 htail
    have hxsmall : x ≤ 9 * 10 ^ 17 := by
      have := foldl_step_bounds (c :: ds) x hx hds
      exact le_trans this.1 hbound
    simp only [List.cons_append, goLeadingFractionAux, hc, if_true, Bool.false_eq_true,
      if_false]
    rw [if_neg (by rw [hdiv]; omega), if_neg (by omega)]
    simp only [List.append_eq]
    rw [ih rest (x * 10 + chDigit c) (scale * 10) htail hrest hx1 hb1]
    rw [List.foldl_cons, List.length_cons]
    congr 1
    rw [pow_succ]
    ring_nf

/-- The unit scan takes a single non-digit character when the rest starts
with a digit or dot (or is empty). -/
theorem goTakeUnit_single (a : Char) (ha : ¬(a = '.' ∨ isDigitCh a = true))
    (rest : List Char)
    (hr : ∀ c, rest.head? = some c → (c = '.' ∨ isDigitCh c = true)) :
    goTakeUnit (a :: rest) = ([a], rest) := by
  cases rest with
  | nil => simp [goTakeUnit, ha]
  | cons c r =>
    have := hr c rfl
    simp [goTakeUnit, ha, this]

/-- The parse loop accepts the empty remainder with any fuel. -/
theorem goParseDurationLoop_nil (fuel : Nat) (d : Int) :
    goParseDurationLoop fuel [] d = some d := by
  cases fuel <;> rfl

/-- Go `leadingInt` on a digit block followed by a non-digit. -/
theorem goLeadingInt_digits_spec (ds rest : List Char)
    (hds : ∀ c ∈ ds, isDigitCh c = true)
    (hrest : ∀ c, rest.head? = some c → isDigitCh c = false)
    (hbound : digitsVal ds ≤ 9 * 10 ^ 17) :
    goLeadingInt (ds ++ rest) = some (digitsVal ds, rest) :=
  goLeadingIntAux_spec ds rest 0 hds hrest le_rfl hbound

/-- One fraction-free component of the parse loop: a digit block, a unit,
then input whose head is a digit again (or is a unit boundary handled by
`htu`). -/
theorem goParseDurationStep_nofrac (c0 : Char) (ds u rest : List Char) (d v unit : Int)
    (hds : ∀ c ∈ c0 :: ds, isDigitCh c = true)
    (hval : digitsVal (c0 :: ds) = v) (hvb : v ≤ 9 * 10 ^ 17)
    (hstop : ∀ c, (u ++ rest).head? = some c → isDigitCh c = false)
    (hnd : (u ++ rest).head? ≠ some '.')
    (htu : goTakeUnit (u ++ rest) = (u, rest))
    (hune : u ≠ [])
    (hunit : goUnitMap u = some unit)
    (hg1 : ¬(v > Int.tdiv (2 ^ 63) unit))
    (hg2 : ¬(v * unit > 2 ^ 63))
    (hg3 : ¬(d + v * unit > 2 ^ 63)) :
    goParseDurationStep ((c0 :: ds) ++ (u ++ rest)) d = some (rest, d + v * unit) := by
  have hc0 : isDigitCh c0 = true := hds c0 (List.mem_cons_self c0 ds)
  have hli : goLeadingInt ((c0 :: ds) ++ (u ++ rest)) = some (v, u ++ rest) := by
    rw [goLeadingInt_digits_spec (c0 :: ds) (u ++ rest) hds hstop (hval ▸ hvb), hval]
  simp only [List.cons_append] at hli ⊢
  have hdot : ((u ++ rest).head? = some '.') = False := eq_false hnd
  have hpre : ((u ++ rest).length ≠ (c0 :: (ds ++ (u ++ rest))).length) := by
    simp only [List.length_cons, List.length_append]
    omega
  have hu : (u = []) = False := eq_false hune
  simp only [goParseDurationStep, hc0, hli, hdot, decide_False, Bool.false_eq_true,
    if_false, htu, hu, hunit, eq_true hpre, decide_True, hg1, hg2, hg3]
  simp only [gt_iff_lt, not_lt] at hg2 hg3
  simp [hg2, hg3]
  omega

/-- One component of the parse loop carrying a fractional part:
`digits '.' digits unit`, then the rest. -/
theorem goParseDurationStep_frac (c0 : Char) (ds fs u rest : List Char)
    (d v f unit vv : Int)
    (hds : ∀ c ∈ c0 :: ds, isDigitCh c = true)
    (hval : digitsVal (c0 :: ds) = v) (hvb : v ≤ 9 * 10 ^ 17)
    (hfs : ∀ c ∈ fs, isDigitCh c = true) (hfne : fs ≠ [])
    (hfval : digitsVal fs = f) (hfb : f ≤ 9 * 10 ^ 17)
    (hstop : ∀ c, (u ++ rest).head? = some c → isDigitCh c = false)
    (htu : goTakeUnit (u ++ rest) = (u, rest))
    (hune : u ≠ [])
    (hunit : goUnitMap u = some unit)
    (hvv : vv = v * unit + (if f > 0 then Int.tdiv (f * unit) (10 ^ fs.length) else 0))
    (hg1 : ¬(v > Int.tdiv (2 ^ 63) unit))
    (hg2 : ¬(vv > 2 ^ 63))
    (hg3 : ¬(d + vv > 2 ^ 63)) :
    goParseDurationStep ((c0 :: ds) ++ '.' :: (fs ++ (u ++ rest))) d =
      some (rest, d + vv) := by
  have hc0 : isDigitCh c0 = true := hds c0 (List.mem_cons_self c0 ds)
  have hli : goLeadingInt ((c0 :: ds) ++ '.' :: (fs ++ (u ++ rest))) =
      some (v, '.' :: (fs ++ (u ++ rest))) := by
    rw [goLeadingInt_digits_spec (c0 :: ds) ('.' :: (fs ++ (u ++ rest))) hds
      (by intro c hc; cases hc; decide) (hval ▸ hvb), hval]
  have hfoldl : List.foldl (fun a c => a * 10 + chDigit c) 0 fs = f := hfval
  have hlf : goLeadingFraction (fs ++ (u ++ rest)) = (f, 10 ^ fs.length, u ++ rest) := by
    rw [goLeadingFraction, goLeadingFractionAux_spec fs (u ++ rest) 0 1 hfs hstop le_rfl
      (by rw [hfoldl]; exact hfb), hfoldl, one_mul]
  simp only [List.cons_append] at hli ⊢
  have hpre : (('.' :: (fs ++ (u ++ rest))).length ≠
      (c0 :: (ds ++ '.' :: (fs ++ (u ++ rest)))).length) := by
    simp only [List.length_cons, List.length_append]
    omega
  have hpost : ((u ++ rest).length ≠ (fs ++ (u ++ rest)).length) := by
    have := List.length_pos.mpr hfne
    simp only [List.length_append]
    omega
  have hu : (u = []) = False := eq_false hune
  have he : (if 0 < f then v * unit + Int.tdiv (f * unit) (10 ^ fs.length) else v * unit) =
      vv := by
    rcases lt_or_le 0 f with h | h
    · rw [if_pos h, hvv, if_pos h]
    · rw [if_neg (not_lt.mpr h), hvv, if_neg (by omega)]
      omega
  simp only [goParseDurationStep, hc0, hli, List.head?_cons, Option.some.injEq,
    List.tail_cons, hlf, htu, hu, hunit, eq_true hpre, eq_true hpost, decide_True, hg1]
  simp only [if_true, hlf, htu, hu, hunit, eq_true hpost, decide_True]
  rw [he]
  have hg1n : v ≤ Int.tdiv 9223372036854775808 unit := by
    have h := hg1
    norm_num at h
    exact h
  simp [hg2, hg3]
  refine ⟨hg1n, by omega, by omega⟩

/-- A digit character is not a sign character. -/
theorem digit_ne_sign (c : Char) (hc : isDigitCh c = true) : c ≠ '-' ∧ c ≠ '+' := by
  constructor <;> rintro rfl <;> simp [isDigitCh] at hc

/-- Unfolding one iteration of the component loop. -/
theorem goParseDurationLoop_cons (fuel : Nat) (c : Char) (l : List Char) (d : Int) :
    goParseDurationLoop (fuel + 1) (c :: l) d =
      match goParseDurationStep (c :: l) d with
      | none => none
      | some (s3, d2) => goParseDurationLoop fuel s3 d2 := rfl

/-- Go `time.ParseDuration` on a glued `HHhMMmSS.mmms` rendering of
in-range clock components accepts and returns the encoded total. -/
theorem goParseDuration_hms (h m s ms : Int)
    (hh : 0 ≤ h) (hhb : h ≤ 2562047) (hm : 0 ≤ m) (hmb : m < 60)
    (hs : 0 ≤ s) (hsb : s < 60) (hms : 0 ≤ ms) (hmsb : ms < 1000)
    (htotal : h * 3600000000000 + m * 60000000000 + s * 1000000000 + ms * 1000000 ≤ maxInt64) :
    goParseDuration (goPadInt 2 h ++ 'h' :: (goPadInt 2 m ++ 'm' :: ((goPadInt 2 s ++ '.' :: goPadInt 3 ms) ++ ['s']))) =
      some (h * 3600000000000 + m * 60000000000 + s * 1000000000 + ms * 1000000) := by
  obtain ⟨a0, A, hA⟩ := List.exists_cons_of_ne_nil (goPadInt_ne_nil 2 h hh)
  obtain ⟨b0, B, hB⟩ := List.exists_cons_of_ne_nil (goPadInt_ne_nil 2 m hm)
  obtain ⟨c0, C, hC⟩ := List.exists_cons_of_ne_nil (goPadInt_ne_nil 2 s hs)
  have hC3len : (goPadInt 3 ms).length = 3 :=
    goPadInt_length 3 ms hms (by omega) (by norm_num)
  have ha0 : isDigitCh a0 = true := goPadInt_digits 2 h hh a0 (hA ▸ List.mem_cons_self a0 A)
  have hb0 : isDigitCh b0 = true := goPadInt_digits 2 m hm b0 (hB ▸ List.mem_cons_self b0 B)
  have hc0 : isDigitCh c0 = true := goPadInt_digits 2 s hs c0 (hC ▸ List.mem_cons_self c0 C)
  -- step 1
  have hstep1 : goParseDurationStep
      (goPadInt 2 h ++ 'h' :: (goPadInt 2 m ++ 'm' :: ((goPadInt 2 s ++ '.' :: goPadInt 3 ms) ++ ['s']))) 0 =
      some ((goPadInt 2 m ++ 'm' :: ((goPadInt 2 s ++ '.' :: goPadInt 3 ms) ++ ['s'])),
        0 + h * 3600000000000) := by
    rw [hA]
    have := goParseDurationStep_nofrac a0 A ['h']
      (goPadInt 2 m ++ 'm' :: ((goPadInt 2 s ++ '.' :: goPadInt 3 ms) ++ ['s']))
      0 h 3600000000000
      (by rw [← hA]; exact goPadInt_digits 2 h hh)
      (by rw [← hA]; exact digitsVal_goPadInt 2 h hh)
      (by omega)
      (by intro c hc; simp at hc; subst hc; decide)
      (by simp)
      (by
        apply goTakeUnit_single
        · decide
        · intro c hc
          rw [hB] at hc
          simp at hc
          subst hc
          right
          exact hb0)
      (by simp)
      rfl
      (by rw [show Int.tdiv (2 ^ 63) 3600000000000 = 2562047 from by decide]; omega)
      (by omega)
      (by omega)
    simpa using this
  -- step 2
  have hstep2 : goParseDurationStep
      (goPadInt 2 m ++ 'm' :: ((goPadInt 2 s ++ '.' :: goPadInt 3 ms) ++ ['s']))
      (0 + h * 3600000000000) =
      some ((goPadInt 2 s ++ '.' :: goPadInt 3 ms) ++ ['s'],
        0 + h * 3600000000000 + m * 60000000000) := by
    rw [hB]
    have := goParseDurationStep_nofrac b0 B ['m']
      ((goPadInt 2 s ++ '.' :: goPadInt 3 ms) ++ ['s'])
      (0 + h * 3600000000000) m 60000000000
      (by rw [← hB]; exact goPadInt_digits 2 m hm)
      (by rw [← hB]; exact digitsVal_goPadInt 2 m hm)
      (by omega)
      (by intro c hc; simp at hc; subst hc; decide)
      (by simp)
      (by
        apply goTakeUnit_single
        · decide
        · intro c hc
          rw [hC] at hc
          simp at hc
          subst hc
          right
          exact hc0)
      (by simp)
      rfl
      (by rw [show Int.tdiv (2 ^ 63) 60000000000 = 153722867 from by decide]; omega)
      (by omega)
      (by simp only [maxInt64] at htotal; omega)
    simpa using this
  -- step 3 (with fraction)
  have hstep3 : goParseDurationStep
      ((goPadInt 2 s ++ '.' :: goPadInt 3 ms) ++ ['s'])
      (0 + h * 3600000000000 + m * 60000000000) =
      some ([],
        0 + h * 3600000000000 + m * 60000000000 + (s * 1000000000 + ms * 1000000)) := by
    have hshape : (goPadInt 2 s ++ '.' :: goPadInt 3 ms) ++ ['s'] =
        (c0 :: C) ++ '.' :: (goPadInt 3 ms ++ (['s'] ++ ([] : List Char))) := by
      rw [← hC]
      simp
    rw [hshape]
    have := goParseDurationStep_frac c0 C (goPadInt 3 ms) ['s'] ([] : List Char)
      (0 + h * 3600000000000 + m * 60000000000) s ms 1000000000
      (s * 1000000000 + ms * 1000000)
      (by rw [← hC]; exact goPadInt_digits 2 s hs)
      (by rw [← hC]; exact digitsVal_goPadInt 2 s hs)
      (by omega)
      (goPadInt_digits 3 ms hms)
      (goPadInt_ne_nil 3 ms hms)
      (digitsVal_goPadInt 3 ms hms)
      (by omega)
      (by intro c hc; simp at hc; subst hc; decide)
      (by
        apply goTakeUnit_single
        · decide
        · intro c hc
          simp at hc)
      (by simp)
      rfl
      (by
        rw [hC3len]
        rcases lt_or_le 0 ms with hz | hz
        · rw [if_pos hz, show (10 : Int) ^ 3 = 1000 from by norm_num,
            show ms * 1000000000 = ms * 1000000 * 1000 from by ring,
            Int.mul_tdiv_cancel _ (by norm_num)]
        · rw [if_neg (not_lt.mpr hz)]
          omega)
      (by rw [show Int.tdiv (2 ^ 63) 1000000000 = 9223372036 from by decide]; omega)
      (by simp only [maxInt64] at htotal; omega)
      (by simp only [maxInt64] at htotal; omega)
    simpa using this
  -- assemble
  have hglued : goPadInt 2 h ++ 'h' :: (goPadInt 2 m ++ 'm' :: (goPadInt 2 s ++ '.' :: goPadInt 3 ms ++ ['s'])) =
      a0 :: (A ++ 'h' :: (goPadInt 2 m ++ 'm' :: (goPadInt 2 s ++ '.' :: goPadInt 3 ms ++ ['s']))) := by
    rw [hA, List.cons_append]
  have hglued2 : goPadInt 2 m ++ 'm' :: (goPadInt 2 s ++ '.' :: goPadInt 3 ms ++ ['s']) =
      b0 :: (B ++ 'm' :: (goPadInt 2 s ++ '.' :: goPadInt 3 ms ++ ['s'])) := by
    rw [hB, List.cons_append]
  have hglued3 : goPadInt 2 s ++ '.' :: goPadInt 3 ms ++ ['s'] =
      c0 :: (C ++ '.' :: goPadInt 3 ms ++ ['s']) := by
    rw [hC]
    simp
  have hne1 := digit_ne_sign a0 ha0
  rw [goParseDuration]
  rw [hglued]
  simp only [List.head?_cons, Option.some.injEq, hne1.1, hne1.2, or_self, if_false,
    decide_False, Bool.false_eq_true]
  rw [if_neg (by simp), if_neg (by simp), List.length_cons]
  rw [goParseDurationLoop_cons]
  rw [hglued] at hstep1
  rw [hstep1]
  dsimp only
  obtain ⟨n1, hn1⟩ : ∃ n, (A ++ 'h' :: (goPadInt 2 m ++ 'm' :: (goPadInt 2 s ++ '.' :: goPadInt 3 ms ++ ['s']))).length = n + 1 := by
    refine ⟨(A ++ 'h' :: (goPadInt 2 m ++ 'm' :: (goPadInt 2 s ++ '.' :: goPadInt 3 ms ++ ['s']))).length - 1, ?_⟩
    simp only [List.length_append, List.length_cons]
    omega
  rw [hn1, hglued2]
  rw [goParseDurationLoop_cons]
  rw [hglued2] at hstep2
  rw [hstep2]
  dsimp only
  obtain ⟨n2, hn2⟩ : ∃ x, n1 = x + 1 := by
    refine ⟨n1 - 1, ?_⟩
    simp only [List.length_append, List.length_cons] at hn1
    omega
  rw [hn2, hglued3]
  rw [goParseDurationLoop_cons]
  rw [hglued3] at hstep3
  rw [hstep3]
  dsimp only
  rw [goParseDurationLoop_nil]
  dsimp only
  rw [if_neg (by simp only [maxInt64] at htotal; omega)]
  congr 1
  ring

/-- Splitting a colon-free list is the identity segment. -/
theorem splitOnColon_no_colon (l : List Char) (hl : ∀ c ∈ l, c ≠ ':') :
    splitOnColon l = [l] := by
  induction l with
  | nil => rfl
  | cons c rest ih =>
    have hc : ¬(c = ':') := hl c (List.mem_cons_self c rest)
    have := ih fun d hd => hl d (List.mem_cons_of_mem c hd)
    simp only [splitOnColon, this, hc, if_false]

/-- Splitting a list that starts with a colon-free segment and a colon. -/
theorem splitOnColon_append (l1 rest : List Char) (hl : ∀ c ∈ l1, c ≠ ':') :
    splitOnColon (l1 ++ ':' :: rest) = l1 :: splitOnColon rest := by
  induction l1 with
  | nil =>
    simp [splitOnColon]
  | cons c l1 ih =>
    have hc : ¬(c = ':') := hl c (List.mem_cons_self c l1)
    have := ih fun d hd => hl d (List.mem_cons_of_mem c hd)
    simp only [List.cons_append, splitOnColon, List.append_eq, this, hc, if_false]

/-- A digit character is not a colon. -/
theorem digit_ne_colon (c : Char) (hc : isDigitCh c = true) : c ≠ ':' := by
  rintro rfl
  simp [isDigitCh] at hc

/-- The formatted duration of a whole number of milliseconds splits into its
three clock fields. -/
theorem splitOnColon_format (h m s ms : Int) (hh : 0 ≤ h) (hm : 0 ≤ m) (hs : 0 ≤ s)
    (hms : 0 ≤ ms) :
    splitOnColon (goPadInt 2 h ++ ':' :: (goPadInt 2 m ++ ':' ::
        (goPadInt 2 s ++ '.' :: goPadInt 3 ms))) =
      [goPadInt 2 h, goPadInt 2 m, goPadInt 2 s ++ '.' :: goPadInt 3 ms] := by
  rw [splitOnColon_append _ _ fun c hc => digit_ne_colon c (goPadInt_digits 2 h hh c hc),
    splitOnColon_append _ _ fun c hc => digit_ne_colon c (goPadInt_digits 2 m hm c hc),
    splitOnColon_no_colon]
  intro c hc
  rcases List.mem_append.mp hc with hc | hc
  · exact digit_ne_colon c (goPadInt_digits 2 s hs c hc)
  · rcases List.mem_cons.mp hc with rfl | hc
    · decide
    · exact digit_ne_colon c (goPadInt_digits 3 ms hms c hc)

/-- `parseDurationFromString` on a string whose colon-split has exactly three
segments glues them as `AhBmCs` and delegates to `goParseDuration`. -/
theorem parseDurationFromString_three (l p0 p1 p2 : List Char)
    (hsplit : splitOnColon l = [p0, p1, p2]) :
    parseDurationFromString (String.mk l) =
      goParseDuration (p0 ++ 'h' :: p1 ++ 'm' :: p2 ++ ['s']) := by
  simp only [parseDurationFromString]
  rw [hsplit]

set_option maxRecDepth 8000 in
/-- C9 amended: formatting any non-negative whole-millisecond `int64`
duration and re-parsing the result returns the original duration. -/
theorem duration_roundtrip_ms (k : Nat) (hk : (k : Int) * 1000000 ≤ maxInt64) :
    parseDurationFromString (formatDuration ((k : Int) * 1000000)) =
      some ((k : Int) * 1000000) := by
  have hd0 : 0 ≤ (k : Int) * 1000000 := by positivity
  have hk2 := hk
  simp only [maxInt64] at hk2
  have hround : goDurationRound ((k : Int) * 1000000) nsMillisecond = (k : Int) * 1000000 := by
    have hmod : Int.tmod ((k : Int) * 1000000) 1000000 = 0 := Int.mul_tmod_left _ _
    simp [goDurationRound, nsMillisecond, lessThanHalf, hmod, not_lt.mpr hd0]
  obtain ⟨h, m, s, ms, hdec, hh0, hhb, hm0, hmb, hs0, hsb, hms0, hmsb, eh, em, es, ems⟩ :
      ∃ h m s ms : Int,
        (k : Int) * 1000000 =
            h * 3600000000000 + m * 60000000000 + s * 1000000000 + ms * 1000000 ∧
          0 ≤ h ∧ h ≤ 2562047 ∧ 0 ≤ m ∧ m < 60 ∧ 0 ≤ s ∧ s < 60 ∧ 0 ≤ ms ∧ ms < 1000 ∧
          Int.tdiv ((k : Int) * 1000000) nsHour = h ∧
          Int.tdiv ((k : Int) * 1000000 - h * nsHour) nsMinute = m ∧
          Int.tdiv ((k : Int) * 1000000 - h * nsHour - m * nsMinute) nsSecond = s ∧
          Int.tdiv ((k : Int) * 1000000 - h * nsHour - m * nsMinute - s * nsSecond)
              nsMillisecond = ms := by
    refine ⟨(k : Int) * 1000000 / 3600000000000,
      (k : Int) * 1000000 % 3600000000000 / 60000000000,
      (k : Int) * 1000000 % 3600000000000 % 60000000000 / 1000000000,
      (k : Int) * 1000000 % 3600000000000 % 60000000000 % 1000000000 / 1000000,
      by omega, by omega, by omega, by omega, by omega, by omega, by omega, by omega,
      by omega, ?_, ?_, ?_, ?_⟩
    · rw [nsHour]
      exact Int.tdiv_eq_ediv hd0 (by norm_num)
    · rw [nsHour, nsMinute,
        show (k : Int) * 1000000 - (k : Int) * 1000000 / 3600000000000 * 3600000000000 =
          (k : Int) * 1000000 % 3600000000000 from by omega]
      exact Int.tdiv_eq_ediv (by omega) (by norm_num)
    · rw [nsHour, nsMinute, nsSecond,
        show (k : Int) * 1000000 - (k : Int) * 1000000 / 3600000000000 * 3600000000000 -
            (k : Int) * 1000000 % 3600000000000 / 60000000000 * 60000000000 =
          (k : Int) * 1000000 % 3600000000000 % 60000000000 from by omega]
      exact Int.tdiv_eq_ediv (by omega) (by norm_num)
    · rw [nsHour, nsMinute, nsSecond, nsMillisecond,
        show (k : Int) * 1000000 - (k : Int) * 1000000 / 3600000000000 * 3600000000000 -
            (k : Int) * 1000000 % 3600000000000 / 60000000000 * 60000000000 -
            (k : Int) * 1000000 % 3600000000000 % 60000000000 / 1000000000 * 1000000000 =
          (k : Int) * 1000000 % 3600000000000 % 60000000000 % 1000000000 from by omega]
      exact Int.tdiv_eq_ediv (by omega) (by norm_num)
  have hfmt : formatDurationChars ((k : Int) * 1000000) =
      goPadInt 2 h ++ ':' :: (goPadInt 2 m ++ ':' ::
        (goPadInt 2 s ++ '.' :: goPadInt 3 ms)) := by
    simp only [formatDurationChars, hround]
    rw [eh, em, es, ems]
    simp [List.append_assoc]
  rw [formatDuration]
  rw [parseDurationFromString_three (formatDurationChars ((k : Int) * 1000000))
    (goPadInt 2 h) (goPadInt 2 m) (goPadInt 2 s ++ '.' :: goPadInt 3 ms)
    (by rw [hfmt]; exact splitOnColon_format h m s ms hh0 hm0 hs0 hms0)]
  have hglue : (goPadInt 2 h ++ 'h' :: goPadInt 2 m ++ 'm' ::
        (goPadInt 2 s ++ '.' :: goPadInt 3 ms) ++ ['s']) =
      goPadInt 2 h ++ 'h' :: (goPadInt 2 m ++ 'm' ::
        ((goPadInt 2 s ++ '.' :: goPadInt 3 ms) ++ ['s'])) := by
    simp [List.append_assoc]
  rw [hglue]
  rw [goParseDuration_hms h m s ms hh0 hhb hm0 hmb hs0 hsb hms0 hmsb
    (by rw [← hdec]; exact hk)]
  rw [← hdec]

/-- Witness for the amended C9 at the duration `00:01:02.500` named by the
claim (62500 whole milliseconds). -/
theorem duration_roundtrip_ms_witness :
    (62500 : Int) * 1000000 ≤ maxInt64 ∧
      parseDurationFromString (formatDuration ((62500 : Int) * 1000000)) =
        some ((62500 : Int) * 1000000) :=
  ⟨by decide, duration_roundtrip_ms 62500 (by decide)⟩
